import Mathlib

/-!
Verification of the STL-to-2D projection pipeline (mesh decoder and
projection engine from `src/server/stl-parser.ts` and the projection
engine that follows it).

Modelling conventions used throughout this development:

* Numbers are exact rationals (`ℚ`).  The source computes with IEEE
  doubles; all claims below are statements about the algorithms, which we
  read over exact arithmetic.
* The source compares Euclidean distances (`Math.sqrt` of a sum of
  squares) against other distances or against a positive epsilon.  Since
  `Real.sqrt` is strictly monotone on nonnegative inputs, every such
  comparison is equivalent to the comparison of the squares, which is
  rational; the embedding therefore carries squared distances and squared
  epsilons.  Each definition doing so says which source comparison it
  mirrors.
* JavaScript `Map` keys built from coordinate strings (`"x,y,z"`) are in
  bijection with the coordinate triples themselves (decimal rendering of
  numbers is injective and contains no comma), so the embedding keys its
  association lists by the triples directly.
* `Math.round x` is `⌊x + 1/2⌋` for every real `x` (JavaScript rounds
  half-way cases toward positive infinity), which is how `jsRound` below
  is defined.
-/

namespace STL

/-- Three rational components, mirroring the `Vector3` interface. -/
structure Vector3 where
  x : ℚ
  y : ℚ
  z : ℚ
deriving DecidableEq

/-- A triangle: three indices into the owning mesh's vertex list plus the
normal taken from the source file, mirroring the `Face` interface. -/
structure Face where
  vertices : ℕ × ℕ × ℕ
  normal : Vector3
deriving DecidableEq

/-- Axis-aligned bounding box, mirroring the `bounds` field of `Mesh`. -/
structure Bounds where
  min : Vector3
  max : Vector3
deriving DecidableEq

/-- The canonical mesh representation, mirroring the `Mesh` interface. -/
structure Mesh where
  vertices : List Vector3
  faces : List Face
  bounds : Bounds
deriving DecidableEq

/-- Fold step of `calculateBounds`: the body of its `for` loop, which
updates each min/max component by comparison with the visited vertex. -/
def boundsStep (b : Bounds) (v : Vector3) : Bounds :=
  ⟨⟨min b.min.x v.x, min b.min.y v.y, min b.min.z v.z⟩,
   ⟨max b.max.x v.x, max b.max.y v.y, max b.max.z v.z⟩⟩

/-- Embedding of `calculateBounds` (stl-parser.ts lines 181-210): zero box
for an empty vertex list, otherwise min/max folded from the first vertex. -/
def calculateBounds : List Vector3 → Bounds
  | [] => ⟨⟨0, 0, 0⟩, ⟨0, 0, 0⟩⟩
  | v :: rest => rest.foldl boundsStep ⟨v, v⟩

/-- State of the exact-key vertex deduplication shared by both parse
paths: the vertex list built so far and the key-to-index map (`vertexMap`
in the source, an association list here; see the module comment on string
keys). -/
structure VtxState where
  vertices : List Vector3
  vertexMap : List (Vector3 × ℕ)
deriving DecidableEq

/-- Lookup in the vertex map by exact coordinate triple. -/
def lookupVtx : List (Vector3 × ℕ) → Vector3 → Option ℕ
  | [], _ => none
  | (k, i) :: rest, v => if k = v then some i else lookupVtx rest v

/-- Embedding of the vertex-deduplication snippet that appears verbatim in
both `parseAsciiSTL` (lines 64-73) and `parseBinarySTL` (lines 148-157):
reuse the index of a previously seen identical triple, otherwise append
the vertex and record its index. -/
def addVertex (s : VtxState) (v : Vector3) : VtxState × ℕ :=
  match lookupVtx s.vertexMap v with
  | some i => (s, i)
  | none =>
    (⟨s.vertices ++ [v], s.vertexMap ++ [(v, s.vertices.length)]⟩, s.vertices.length)

/-- Loop state of `parseAsciiSTL` (locals of lines 53-56). -/
structure AsciiState where
  vs : VtxState
  faces : List Face
  faceIndex : ℕ
  vertexInFace : ℕ
  currentFaceVertices : ℕ × ℕ × ℕ
  currentNormal : Vector3
deriving DecidableEq

/-- Body of the `parseAsciiSTL` vertex loop (lines 58-97) for one parsed
vertex triple: deduplicate the vertex, then depending on `vertexInFace`
either start a new face (loading its normal when one is available), record
the second vertex, or complete and push the face. -/
def asciiStep (normalMatches : List Vector3) (s : AsciiState) (v : Vector3) : AsciiState :=
  let p := addVertex s.vs v
  let vs := p.1
  let vertexIdx := p.2
  if s.vertexInFace = 0 then
    let currentNormal :=
      match normalMatches.get? s.faceIndex with
      | some n => n
      | none => s.currentNormal
    { s with vs := vs, currentFaceVertices := (vertexIdx, 0, 0),
             currentNormal := currentNormal, vertexInFace := 1 }
  else if s.vertexInFace = 1 then
    { s with vs := vs,
             currentFaceVertices := (s.currentFaceVertices.1, vertexIdx, s.currentFaceVertices.2.2),
             vertexInFace := 2 }
  else
    { s with vs := vs,
             faces := s.faces ++
               [⟨(s.currentFaceVertices.1, s.currentFaceVertices.2.1, vertexIdx), s.currentNormal⟩],
             faceIndex := s.faceIndex + 1, vertexInFace := 0 }

/-- Initial state of the `parseAsciiSTL` loop. -/
def asciiInit : AsciiState :=
  ⟨⟨[], []⟩, [], 0, 0, (0, 0, 0), ⟨0, 0, 0⟩⟩

/-- Embedding of `parseAsciiSTL` (lines 37-104).  The regular-expression
extraction of `vertex x y z` and `facet normal nx ny nz` triples is string
processing; the function is modelled from the point where the two match
lists exist, taking them as inputs.  It fails exactly when no vertex
triple was found. -/
def parseAsciiSTL (vertexMatches normalMatches : List Vector3) : Except String Mesh :=
  if vertexMatches.length = 0 then .error "No vertices found in ASCII STL"
  else
    let s := vertexMatches.foldl (asciiStep normalMatches) asciiInit
    .ok ⟨s.vs.vertices, s.faces, calculateBounds s.vs.vertices⟩

/-- Reads one byte of a buffer; `none` when the offset is out of range
(the JavaScript `Buffer` accessors throw in that case). -/
def readByte (b : List ℕ) (off : ℕ) : Option ℕ :=
  b.get? off

/-- Embedding of `Buffer.readUInt32LE`. -/
def readUInt32LE (b : List ℕ) (off : ℕ) : Option ℕ := do
  let b0 ← readByte b off
  let b1 ← readByte b (off + 1)
  let b2 ← readByte b (off + 2)
  let b3 ← readByte b (off + 3)
  pure (b0 + 256 * b1 + 65536 * b2 + 16777216 * b3)

/-- Decodes a 32-bit word as an IEEE-754 single-precision value, as an
exact rational.  Encodings with exponent 255 (NaN and the infinities) have
no rational value and are mapped to 0; no claim settled against this
development depends on the decoded value of such an encoding (the one
claim that does, about NaN/infinity propagation, is outside this exact
embedding). -/
def decodeFloat32 (w : ℕ) : ℚ :=
  let sign : ℕ := w / 2 ^ 31 % 2
  let expo : ℕ := w / 2 ^ 23 % 256
  let mant : ℕ := w % 2 ^ 23
  let sgn : ℚ := if sign = 1 then -1 else 1
  if expo = 0 then sgn * (mant : ℚ) / 2 ^ 149
  else if expo = 255 then 0
  else sgn * ((2 ^ 23 + mant : ℕ) : ℚ) * 2 ^ expo / 2 ^ 150

/-- Embedding of `Buffer.readFloatLE`. -/
def readFloatLE (b : List ℕ) (off : ℕ) : Option ℚ :=
  (readUInt32LE b off).map decodeFloat32

/-- Body of the `parseBinarySTL` triangle loop (lines 130-169) for
triangle `i`: read the normal and the three vertices (deduplicated), skip
the attribute bytes, and push the face.  Triangle `i` starts at byte
offset `84 + 50 * i`. -/
def binStep (b : List ℕ) (st : VtxState × List Face) (i : ℕ) :
    Option (VtxState × List Face) := do
  let base := 84 + 50 * i
  let nx ← readFloatLE b base
  let ny ← readFloatLE b (base + 4)
  let nz ← readFloatLE b (base + 8)
  let x0 ← readFloatLE b (base + 12)
  let y0 ← readFloatLE b (base + 16)
  let z0 ← readFloatLE b (base + 20)
  let x1 ← readFloatLE b (base + 24)
  let y1 ← readFloatLE b (base + 28)
  let z1 ← readFloatLE b (base + 32)
  let x2 ← readFloatLE b (base + 36)
  let y2 ← readFloatLE b (base + 40)
  let z2 ← readFloatLE b (base + 44)
  let p0 := addVertex st.1 ⟨x0, y0, z0⟩
  let p1 := addVertex p0.1 ⟨x1, y1, z1⟩
  let p2 := addVertex p1.1 ⟨x2, y2, z2⟩
  pure (p2.1, st.2 ++ [⟨(p0.2, p1.2, p2.2), ⟨nx, ny, nz⟩⟩])

/-- Embedding of `parseBinarySTL` (lines 109-176): reject buffers shorter
than 84 bytes, read the little-endian triangle count at offset 80, reject
truncated buffers, then read the triangles.  The final `.error` branch
mirrors the `RangeError` a JavaScript buffer read past the end would
throw; the truncation check makes it unreachable. -/
def parseBinarySTL (b : List ℕ) : Except String Mesh :=
  if b.length < 84 then .error "Binary STL file too small"
  else
    match readUInt32LE b 80 with
    | none => .error "Binary STL file too small"
    | some numTriangles =>
      if b.length < 80 + 4 + numTriangles * 50 then .error "Binary STL truncated"
      else
        match (List.range numTriangles).foldlM (binStep b) (⟨[], []⟩, []) with
        | some (vs, faces) => .ok ⟨vs.vertices, faces, calculateBounds vs.vertices⟩
        | none => .error "Binary STL read out of range"

/-- Squared magnitude of the cross product of the two edge vectors of a
triangle, the quantity whose square root `removeDegenerate` compares
against its epsilon. -/
def triangleCrossSq (v0 v1 v2 : Vector3) : ℚ :=
  let e1 : Vector3 := ⟨v1.x - v0.x, v1.y - v0.y, v1.z - v0.z⟩
  let e2 : Vector3 := ⟨v2.x - v0.x, v2.y - v0.y, v2.z - v0.z⟩
  let cross : Vector3 :=
    ⟨e1.y * e2.z - e1.z * e2.y, e1.z * e2.x - e1.x * e2.z, e1.x * e2.y - e1.y * e2.x⟩
  cross.x ^ 2 + cross.y ^ 2 + cross.z ^ 2

/-- Vertex of a mesh by index (JavaScript indexing of `mesh.vertices`;
indices produced by the parsers are always in range). -/
def meshVertex (mesh : Mesh) (i : ℕ) : Vector3 :=
  mesh.vertices.getD i ⟨0, 0, 0⟩

/-- The filter predicate of `removeDegenerate` (lines 216-233) for one
face: the triangle area `sqrt crossSq / 2` is compared via
`sqrt crossSq > 1e-10`, i.e. `crossSq > 1e-20`. -/
def faceIsValid (mesh : Mesh) (face : Face) : Bool :=
  let v0 := meshVertex mesh face.vertices.1
  let v1 := meshVertex mesh face.vertices.2.1
  let v2 := meshVertex mesh face.vertices.2.2
  decide (triangleCrossSq v0 v1 v2 > 1 / 10 ^ 20)

/-- Embedding of `removeDegenerate` (lines 215-240). -/
def removeDegenerate (mesh : Mesh) : Mesh :=
  ⟨mesh.vertices, mesh.faces.filter (faceIsValid mesh), mesh.bounds⟩

/-- The `size` local of `normalizeMesh`: the largest of the three axis
extents of the cached bounding box (`Math.max` of the three differences). -/
def meshSize (mesh : Mesh) : ℚ :=
  max (mesh.bounds.max.x - mesh.bounds.min.x)
    (max (mesh.bounds.max.y - mesh.bounds.min.y) (mesh.bounds.max.z - mesh.bounds.min.z))

/-- The `center` local of `normalizeMesh`: the midpoint of the cached
bounding box. -/
def normCenter (mesh : Mesh) : Vector3 :=
  ⟨(mesh.bounds.min.x + mesh.bounds.max.x) / 2, (mesh.bounds.min.y + mesh.bounds.max.y) / 2,
   (mesh.bounds.min.z + mesh.bounds.max.z) / 2⟩

/-- The `scale` local of `normalizeMesh`: the reciprocal of the size. -/
def normScale (mesh : Mesh) : ℚ :=
  1 / meshSize mesh

/-- The per-vertex transform of `normalizeMesh` (lines 265-269): translate
by the negated center, then scale. -/
def normMap (mesh : Mesh) (v : Vector3) : Vector3 :=
  ⟨(v.x - (normCenter mesh).x) * normScale mesh, (v.y - (normCenter mesh).y) * normScale mesh,
   (v.z - (normCenter mesh).z) * normScale mesh⟩

/-- Embedding of `normalizeMesh` (lines 245-276): fail when the size is
exactly zero, otherwise translate every vertex by the negated box center,
scale by the reciprocal size, and recompute the bounds. -/
def normalizeMesh (mesh : Mesh) : Except String Mesh :=
  if meshSize mesh = 0 then .error "Mesh has zero size"
  else
    .ok ⟨mesh.vertices.map (normMap mesh), mesh.faces,
      calculateBounds (mesh.vertices.map (normMap mesh))⟩

/-- Input to `parseSTL` after format detection: either the two match
lists the ASCII path extracts, or the raw bytes the binary path reads.
Format detection itself (lines 29-32) inspects the first five bytes of
the buffer for the text "solid" and is not the subject of any claim. -/
inductive STLInput where
  | ascii (vertexMatches normalMatches : List Vector3)
  | binary (bytes : List ℕ)

/-- The format dispatch at the top of `parseSTL` (lines 285-290). -/
def parseRaw : STLInput → Except String Mesh
  | .ascii vm nm => parseAsciiSTL vm nm
  | .binary b => parseBinarySTL b

/-- Embedding of `parseSTL` (lines 281-306): dispatch on the format,
drop degenerate triangles, fail when no face survives, normalize.  The
source re-wraps any raised error into one message; the embedding keeps
the specific message, which the wrapper includes verbatim. -/
def parseSTL (input : STLInput) : Except String Mesh := do
  let mesh ← parseRaw input
  let mesh := removeDegenerate mesh
  if mesh.faces.length = 0 then .error "No valid faces in STL"
  else normalizeMesh mesh

/-- The six canonical view names (the string union type of the source). -/
inductive ViewName where
  | front
  | back
  | left
  | right
  | top
  | bottom
deriving DecidableEq

/-- A 2D point of the projection engine (`Point2D`). -/
structure Point2D where
  x : ℚ
  y : ℚ
deriving DecidableEq

/-- A 2D line segment of the projection engine (`Line2D`). -/
structure Line2D where
  p0 : Point2D
  p1 : Point2D
deriving DecidableEq

/-- Embedding of `project3DTo2D` (projection engine lines 344-359). -/
def project3DTo2D (point : Vector3) : ViewName → Point2D
  | .front => ⟨point.x, point.y⟩
  | .back => ⟨-point.x, point.y⟩
  | .left => ⟨-point.z, point.y⟩
  | .right => ⟨point.z, point.y⟩
  | .top => ⟨point.x, -point.z⟩
  | .bottom => ⟨point.x, point.z⟩

/-- Embedding of `getViewDirection` (lines 364-374).  The source takes a
string and falls back to the front direction for unknown names; the
callers only ever pass the six canonical names, which the `ViewName` type
enforces. -/
def getViewDirection : ViewName → Vector3
  | .front => ⟨0, 0, -1⟩
  | .back => ⟨0, 0, 1⟩
  | .left => ⟨1, 0, 0⟩
  | .right => ⟨-1, 0, 0⟩
  | .top => ⟨0, -1, 0⟩
  | .bottom => ⟨0, 1, 0⟩

/-- Embedding of `isFrontFacing` (lines 379-383): strictly positive dot
product of the stored normal with the view direction. -/
def isFrontFacing (face : Face) (viewDirection : Vector3) : Bool :=
  let normal := face.normal
  let dotProduct :=
    normal.x * viewDirection.x + normal.y * viewDirection.y + normal.z * viewDirection.z
  decide (dotProduct > 0)

/-- An edge of the adjacency index: the two endpoints in first-seen
orientation and the accumulated incident faces.  The source's `isVisible`
field is written once at creation and never read (visibility is a local
in `getVisibleEdges`), so it is not modelled. -/
structure Edge where
  v0 : Vector3
  v1 : Vector3
  faces : List Face
deriving DecidableEq

/-- Lexicographic strict order on coordinate triples, used to canonicalize
an edge's endpoint pair. -/
def vecLtB (a b : Vector3) : Bool :=
  if a.x ≠ b.x then decide (a.x < b.x)
  else if a.y ≠ b.y then decide (a.y < b.y)
  else decide (a.z < b.z)

/-- Canonical, order-independent key of an edge (lines 404-407).  The
source compares the two decimal key strings and keeps the smaller; what
the map needs from the key is only that the two orderings of the same
endpoint pair collide and that distinct unordered pairs do not, which any
total order on triples provides, here the lexicographic one. -/
def edgeKey (va vb : Vector3) : Vector3 × Vector3 :=
  if vecLtB vb va then (vb, va) else (va, vb)

/-- Insertion into the edge map (lines 409-418): append the face to an
existing entry, otherwise append a new entry (JavaScript `Map` preserves
first-insertion order, as does this association list). -/
def insertEdge : List ((Vector3 × Vector3) × Edge) → Vector3 × Vector3 → Vector3 → Vector3 →
    Face → List ((Vector3 × Vector3) × Edge)
  | [], k, va, vb, face => [(k, ⟨va, vb, [face]⟩)]
  | (k', e) :: rest, k, va, vb, face =>
    if k' = k then (k', ⟨e.v0, e.v1, e.faces ++ [face]⟩) :: rest
    else (k', e) :: insertEdge rest k va vb face

/-- The three undirected edges of a face (lines 396-400). -/
def faceEdges (mesh : Mesh) (face : Face) : List (Vector3 × Vector3) :=
  let v0 := meshVertex mesh face.vertices.1
  let v1 := meshVertex mesh face.vertices.2.1
  let v2 := meshVertex mesh face.vertices.2.2
  [(v0, v1), (v1, v2), (v2, v0)]

/-- Embedding of `extractEdges` (lines 388-423). -/
def extractEdges (mesh : Mesh) : List ((Vector3 × Vector3) × Edge) :=
  mesh.faces.foldl
    (fun m face =>
      (faceEdges mesh face).foldl
        (fun m p => insertEdge m (edgeKey p.1 p.2) p.1 p.2 face) m)
    []

/-- Placeholder face used for JavaScript's `edge.faces[0]` access; only
read when the incidence list has exactly one element. -/
def defaultFace : Face :=
  ⟨(0, 0, 0), ⟨0, 0, 0⟩⟩

/-- The per-edge visibility decision inside `getVisibleEdges`
(lines 438-449): one incident face — visible iff it is front-facing; two
incident faces — visible iff exactly one is front-facing; otherwise the
flag keeps its initial `false`. -/
def edgeIsVisible (edge : Edge) (viewDir : Vector3) : Bool :=
  let frontFacingCount := (edge.faces.filter fun f => isFrontFacing f viewDir).length
  let backFacingCount := edge.faces.length - frontFacingCount
  if edge.faces.length = 1 then isFrontFacing (edge.faces.getD 0 defaultFace) viewDir
  else if edge.faces.length = 2 then
    decide (frontFacingCount = 1) && decide (backFacingCount = 1)
  else false

/-- Embedding of `getVisibleEdges` (lines 428-459): project the edges the
visibility decision keeps. -/
def getVisibleEdges (mesh : Mesh) (view : ViewName) : List Line2D :=
  let viewDir := getViewDirection view
  let edgeMap := extractEdges mesh
  ((edgeMap.map Prod.snd).filter fun e => edgeIsVisible e viewDir).map fun e =>
    ⟨project3DTo2D e.v0 view, project3DTo2D e.v1 view⟩

/-- JavaScript `Math.round`: half-way cases go toward positive infinity. -/
def jsRound (q : ℚ) : ℤ :=
  ⌊q + 1 / 2⌋

/-- One coordinate of `roundCoordinates` (lines 564-577) with its default
of 6 decimals: `Math.round(x * 1e6) / 1e6`. -/
def round6 (q : ℚ) : ℚ :=
  (jsRound (q * 1000000) : ℚ) / 1000000

/-- Embedding of `roundCoordinates` (lines 564-577). -/
def roundCoordinates (lines : List Line2D) : List Line2D :=
  lines.map fun line =>
    ⟨⟨round6 line.p0.x, round6 line.p0.y⟩, ⟨round6 line.p1.x, round6 line.p1.y⟩⟩

/-- The merging epsilon of `mergeCollinearSegments` (default parameter of
line 464): 1e-6. -/
def mergeEpsilon : ℚ :=
  1 / 1000000

/-- Squared Euclidean distance, mirroring `distance` (lines 533-537); see
the module comment on squared comparisons. -/
def distSq (p1 p2 : Point2D) : ℚ :=
  (p2.x - p1.x) ^ 2 + (p2.y - p1.y) ^ 2

/-- Squared point-to-segment distance, mirroring `pointToLineDistance`
(lines 542-559): project onto the segment, clamp the parameter to [0, 1],
and measure to the closest point.  Every arithmetic step of the source is
rational except the final square root, which only feeds comparisons. -/
def pointToLineDistSq (p lineStart lineEnd : Point2D) : ℚ :=
  let dx := lineEnd.x - lineStart.x
  let dy := lineEnd.y - lineStart.y
  let lengthSq := dx ^ 2 + dy ^ 2
  if lengthSq = 0 then distSq p lineStart
  else
    let t := ((p.x - lineStart.x) * dx + (p.y - lineStart.y) * dy) / lengthSq
    let t' := max 0 (min 1 t)
    let closestX := lineStart.x + t' * dx
    let closestY := lineStart.y + t' * dy
    (p.x - closestX) ^ 2 + (p.y - closestY) ^ 2

/-- Sweep state of the per-group merging loop (locals of lines 502-503). -/
structure ChainState where
  currentStart : Point2D
  currentEnd : Point2D
  merged : List Line2D
deriving DecidableEq

/-- Body of the per-group sweep (lines 505-522): absorb the incoming
segment when its start point is within epsilon of the segment from the
chain's current end to the incoming far endpoint, extending the chain to
whichever incoming endpoint is farther from the current end (`d2 > d1`
compared on squares); otherwise close the chain and start a new one. -/
def mergeStep (s : ChainState) (line : Line2D) : ChainState :=
  let distToChain := pointToLineDistSq line.p0 s.currentEnd line.p1
  if distToChain < mergeEpsilon ^ 2 then
    let d1 := distSq s.currentEnd line.p0
    let d2 := distSq s.currentEnd line.p1
    { s with currentEnd := if d2 > d1 then line.p1 else line.p0 }
  else
    ⟨line.p0, line.p1, s.merged ++ [⟨s.currentStart, s.currentEnd⟩]⟩

/-- Sort key of the per-group sort (lines 496-500): the scalar `x + y` of
the segment's start point. -/
def projKey (l : Line2D) : ℚ :=
  l.p0.x + l.p0.y

/-- Stable insertion of a segment into a list sorted by `projKey`. -/
def insertByProj (l : Line2D) : List Line2D → List Line2D
  | [] => [l]
  | x :: xs => if projKey l < projKey x then l :: x :: xs else x :: insertByProj l xs

/-- The per-group sort (lines 496-500).  JavaScript `Array.sort` with the
comparator `projA - projB` is a stable sort by `projKey`; a stable
insertion sort produces the identical ordering. -/
def sortByProj (lines : List Line2D) : List Line2D :=
  lines.foldl (fun acc l => insertByProj l acc) []

/-- The handling of one direction group (lines 492-525): sort by the
scalar projection of start points, then sweep, closing the final chain at
the end. -/
def mergeGroup (lineGroup : List Line2D) : List Line2D :=
  match sortByProj lineGroup with
  | [] => []
  | first :: rest =>
    let final := rest.foldl mergeStep ⟨first.p0, first.p1, []⟩
    final.merged ++ [⟨final.currentStart, final.currentEnd⟩]

/-- Floor of `(sqrt K + m) / d` for natural `K` and positive `d`.  Since
`sqrt K` lies in `[Nat.sqrt K, Nat.sqrt K + 1)`, the floor equals the
floor division of `Nat.sqrt K + m` by `d`. -/
def floorSqrtAdd (K : ℕ) (m d : ℤ) : ℤ :=
  Int.fdiv ((Nat.sqrt K : ℤ) + m) d

/-- Floor of `(m - sqrt K) / d` for natural `K` and positive `d`: exact
when `K` is a perfect square; otherwise the value sits strictly between
`(m - s - 1) / d` and `(m - s) / d` for `s = Nat.sqrt K`, so the floor is
`(m - s) / d - 1` when `d` divides `m - s` and the floor division
otherwise. -/
def floorSubSqrt (K : ℕ) (m d : ℤ) : ℤ :=
  let s : ℤ := (Nat.sqrt K : ℤ)
  if s * s = (K : ℤ) then Int.fdiv (m - s) d
  else if d ∣ (m - s) then Int.fdiv (m - s) d - 1
  else Int.fdiv (m - s) d

/-- Exact value of `Math.round (c * sqrt s)` for rationals `c` and
`s > 0`: with `c = P/Q` and `s = a/b` in lowest terms, `c * sqrt s + 1/2`
equals `(sign P * sqrt (4 P^2 a b) + Q b) / (2 Q b)`. -/
def jsRoundRatMulSqrt (c s : ℚ) : ℤ :=
  let P := c.num
  let Q : ℤ := (c.den : ℤ)
  let a : ℕ := s.num.toNat
  let b : ℕ := s.den
  let K : ℕ := 4 * P.natAbs ^ 2 * a * b
  let m : ℤ := Q * (b : ℤ)
  let d : ℤ := 2 * Q * (b : ℤ)
  if 0 ≤ P then floorSqrtAdd K m d else floorSubSqrt K m d

/-- The grouping key of `mergeCollinearSegments` (lines 470-488): `none`
for segments shorter than epsilon (`length < 1e-6`, compared on squares),
otherwise the pair `Math.round (dx / length * 1e6)`,
`Math.round (dy / length * 1e6)` computed exactly:
`dx / length * 1e6 = (dx * 1e6 / lengthSq) * sqrt lengthSq`. -/
def directionKey (line : Line2D) : Option (ℤ × ℤ) :=
  let dx := line.p1.x - line.p0.x
  let dy := line.p1.y - line.p0.y
  let lengthSq := dx ^ 2 + dy ^ 2
  if lengthSq < mergeEpsilon ^ 2 then none
  else
    some (jsRoundRatMulSqrt (dx * 1000000 / lengthSq) lengthSq,
      jsRoundRatMulSqrt (dy * 1000000 / lengthSq) lengthSq)

/-- Insertion into the direction-group map, preserving first-insertion
order of keys and the order of segments within a group. -/
def groupInsert : List ((ℤ × ℤ) × List Line2D) → ℤ × ℤ → Line2D →
    List ((ℤ × ℤ) × List Line2D)
  | [], k, line => [(k, [line])]
  | (k', ls) :: rest, k, line =>
    if k' = k then (k', ls ++ [line]) :: rest
    else (k', ls) :: groupInsert rest k line

/-- Embedding of `mergeCollinearSegments` (lines 464-528): group the
segments by rounded direction, then merge each group, concatenating the
groups' results in map order. -/
def mergeCollinearSegments (lines : List Line2D) : List Line2D :=
  if lines.length = 0 then []
  else
    let grouped := lines.foldl
      (fun gs line =>
        match directionKey line with
        | none => gs
        | some k => groupInsert gs k line)
      []
    grouped.foldl (fun acc g => acc ++ mergeGroup g.2) []

/-- Embedding of `calculateBbox` (lines 582-604): the fixed box for an
empty line list, otherwise min/max over every endpoint, padded per axis by
5% of the span or by 0.5 when the span is zero (JavaScript `|| 0.5`). -/
def calculateBbox (lines : List Line2D) : ℚ × ℚ × ℚ × ℚ :=
  match lines with
  | [] => (0, 0, 1, 1)
  | l0 :: _ =>
    let r := lines.foldl
      (fun acc line =>
        (min (min acc.1 line.p0.x) line.p1.x,
         min (min acc.2.1 line.p0.y) line.p1.y,
         max (max acc.2.2.1 line.p0.x) line.p1.x,
         max (max acc.2.2.2 line.p0.y) line.p1.y))
      (l0.p0.x, l0.p0.y, l0.p0.x, l0.p0.y)
    let padX := if (r.2.2.1 - r.1) * (5 / 100) = 0 then 1 / 2 else (r.2.2.1 - r.1) * (5 / 100)
    let padY := if (r.2.2.2 - r.2.1) * (5 / 100) = 0 then 1 / 2 else (r.2.2.2 - r.2.1) * (5 / 100)
    (r.1 - padX, r.2.1 - padY, r.2.2.1 + padX, r.2.2.2 + padY)

/-- The output record of one view (`ProjectionView`). -/
structure ProjectionView where
  name : String
  lines : List ((ℚ × ℚ) × (ℚ × ℚ))
  bbox : ℚ × ℚ × ℚ × ℚ
deriving DecidableEq

/-- The canonical name string of a view. -/
def viewNameString : ViewName → String
  | .front => "front"
  | .back => "back"
  | .left => "left"
  | .right => "right"
  | .top => "top"
  | .bottom => "bottom"

/-- The fixed view sequence of `generateProjections` (lines 610-617). -/
def projectionViewOrder : List ViewName :=
  [.front, .back, .left, .right, .top, .bottom]

/-- Embedding of `generateProjections` (lines 609-644): for each view in
the fixed order, compute the visible edges, round, merge, take the
bounding box, and emit the record. -/
def generateProjections (mesh : Mesh) : List ProjectionView :=
  projectionViewOrder.map fun view =>
    let lines := getVisibleEdges mesh view
    let lines := roundCoordinates lines
    let lines := mergeCollinearSegments lines
    let bbox := calculateBbox lines
    ⟨viewNameString view,
     lines.map fun line => ((line.p0.x, line.p0.y), (line.p1.x, line.p1.y)),
     bbox⟩

/-! ## Spec-side definitions

These definitions follow the wording of the specification (spec.md) and
exist to be compared against the definitions above, which follow the
source. -/

/-- Front-facing test as the spec words it: the dot product of the stored
normal with the view direction is strictly positive. -/
def specFrontFacing (face : Face) (d : Vector3) : Prop :=
  0 < face.normal.x * d.x + face.normal.y * d.y + face.normal.z * d.z

/-- Edge visibility as the spec words it: one incident face — visible iff
that face is front-facing; two incident faces — visible iff exactly one of
the two is front-facing; any other incidence count — not visible. -/
def specEdgeVisible (fs : List Face) (d : Vector3) : Prop :=
  match fs with
  | [f] => specFrontFacing f d
  | [f1, f2] =>
    (specFrontFacing f1 d ∧ ¬specFrontFacing f2 d) ∨
      (¬specFrontFacing f1 d ∧ specFrontFacing f2 d)
  | _ => False

/-! ## Claim C1 -/

/-- Code-versus-spec equivalence of the front-facing test. -/
lemma isFrontFacing_iff (f : Face) (d : Vector3) :
    isFrontFacing f d = true ↔ specFrontFacing f d := by
  simp [isFrontFacing, specFrontFacing]

/-- Code-versus-spec equivalence of the per-edge visibility decision. -/
lemma edgeIsVisible_iff_spec (e : Edge) (d : Vector3) :
    edgeIsVisible e d = true ↔ specEdgeVisible e.faces d := by
  match h : e.faces with
  | [] => simp [edgeIsVisible, specEdgeVisible, h]
  | [f] => simpa [edgeIsVisible, specEdgeVisible, h] using isFrontFacing_iff f d
  | [f1, f2] =>
    cases hb1 : isFrontFacing f1 d <;> cases hb2 : isFrontFacing f2 d <;>
      simp [edgeIsVisible, specEdgeVisible, h, List.filter_cons, hb1, hb2,
        ← isFrontFacing_iff]
  | f1 :: f2 :: f3 :: rest =>
    simp [edgeIsVisible, specEdgeVisible, h, List.length_cons]

/-- C1: for every mesh and every one of the six view directions, the
emitted lines are exactly the projections of the edges the per-edge rule
keeps, and that rule agrees with the spec's classification: a face is
front-facing iff the dot product of its stored normal with the view
direction is strictly positive (zero means back-facing); an edge with one
incident face is visible iff that face is front-facing; with two incident
faces, iff exactly one of them is front-facing; with three or more, never. -/
theorem edge_visibility_matches_spec (mesh : Mesh) (v : ViewName) :
    (getVisibleEdges mesh v =
      (((extractEdges mesh).map Prod.snd).filter fun e =>
          edgeIsVisible e (getViewDirection v)).map
        (fun e => ⟨project3DTo2D e.v0 v, project3DTo2D e.v1 v⟩)) ∧
    (∀ e : Edge,
      edgeIsVisible e (getViewDirection v) = true ↔
        specEdgeVisible e.faces (getViewDirection v)) ∧
    (∀ f : Face,
      isFrontFacing f (getViewDirection v) = true ↔
        specFrontFacing f (getViewDirection v)) := by
  refine ⟨rfl, fun e => edgeIsVisible_iff_spec e _, fun f => ?_⟩
  simp [isFrontFacing, specFrontFacing]

/-! ## Claim C2 -/

/-- C2: for every point, the six per-view 2D mappings are exactly those of
the spec's table, and the six view direction vectors used by the facing
test are exactly the spec's vectors. -/
theorem projection_mapping_and_view_directions :
    (∀ p : Vector3,
      project3DTo2D p .front = ⟨p.x, p.y⟩ ∧
      project3DTo2D p .back = ⟨-p.x, p.y⟩ ∧
      project3DTo2D p .left = ⟨-p.z, p.y⟩ ∧
      project3DTo2D p .right = ⟨p.z, p.y⟩ ∧
      project3DTo2D p .top = ⟨p.x, -p.z⟩ ∧
      project3DTo2D p .bottom = ⟨p.x, p.z⟩) ∧
    getViewDirection .front = ⟨0, 0, -1⟩ ∧
    getViewDirection .back = ⟨0, 0, 1⟩ ∧
    getViewDirection .left = ⟨1, 0, 0⟩ ∧
    getViewDirection .right = ⟨-1, 0, 0⟩ ∧
    getViewDirection .top = ⟨0, -1, 0⟩ ∧
    getViewDirection .bottom = ⟨0, 1, 0⟩ :=
  ⟨fun _ => ⟨rfl, rfl, rfl, rfl, rfl, rfl⟩, rfl, rfl, rfl, rfl, rfl, rfl⟩

/-! ## Claim C3 -/

/-- C3: on every mesh, `generateProjections` returns exactly six view
records whose names are "front", "back", "left", "right", "top", "bottom"
in that order (each record carries its `lines` sequence and its `bbox` by
construction of `ProjectionView`). -/
theorem generateProjections_six_named_views (mesh : Mesh) :
    (generateProjections mesh).map ProjectionView.name =
      ["front", "back", "left", "right", "top", "bottom"] ∧
    (generateProjections mesh).length = 6 :=
  ⟨rfl, rfl⟩

/-! ## Claim C5 -/

/-- A chain on the x axis reaching from x = -10 to x = 0. -/
def cexChain : Line2D :=
  ⟨⟨-10, 0⟩, ⟨0, 0⟩⟩

/-- An incoming collinear segment, pointing the same way (+x), whose start
lies 9e-7 behind the chain's endpoint and whose far endpoint lies 1e-7
ahead of it. -/
def cexIncoming : Line2D :=
  ⟨⟨-9 / 10000000, 0⟩, ⟨1 / 10000000, 0⟩⟩

/-- C5 counterexample: both segments share the exact direction (1, 0), so
they land in the same direction group; the incoming segment passes the
distance test (its start is 9e-7 from the chain's endpoint, below the 1e-6
epsilon), yet the absorbed chain ends at the incoming segment's START
point: the endpoint moves strictly backwards along the line (from x = 0 to
x = -9e-7), and is neither the chain's own previous end nor the incoming
far endpoint — the code picks whichever incoming endpoint is farther from
the current end, not whichever point is farther along the line. -/
theorem merge_chain_endpoint_moves_backwards :
    mergeCollinearSegments [cexChain, cexIncoming] = [⟨cexChain.p0, cexIncoming.p0⟩] ∧
    pointToLineDistSq cexIncoming.p0 cexChain.p1 cexIncoming.p1 < mergeEpsilon ^ 2 ∧
    cexIncoming.p0.x < cexChain.p1.x ∧
    cexIncoming.p0 ≠ cexChain.p1 ∧ cexIncoming.p0 ≠ cexIncoming.p1 := by
  have hkA : directionKey cexChain = some (1000000, 0) := by
    have e1 : jsRoundRatMulSqrt (100000 : ℚ) 100 = 1000000 := by
      simp only [jsRoundRatMulSqrt, Rat.num_ofNat, Rat.den_ofNat, floorSqrtAdd]
      rw [if_pos (by decide : (0 : ℤ) ≤ 100000)]
      rw [show 4 * (100000 : ℤ).natAbs ^ 2 * (100 : ℤ).toNat * 1 = 2000000 * 2000000 by decide]
      rw [Nat.sqrt_eq]
      decide
    have e2 : jsRoundRatMulSqrt (0 : ℚ) 100 = 0 := by
      simp only [jsRoundRatMulSqrt, floorSqrtAdd]
      norm_num [Rat.num_ofNat, Rat.den_ofNat]
      decide
    simp only [directionKey, cexChain, mergeEpsilon]
    norm_num [e1, e2]
  have hkB : directionKey cexIncoming = some (1000000, 0) := by
    have hs : ((1 : ℚ) / 1000000000000) = mkRat 1 1000000000000 := by
      rw [Rat.mkRat_eq_div]; norm_num
    have e3 : jsRoundRatMulSqrt (1000000000000 : ℚ) (1 / 1000000000000) = 1000000 := by
      rw [hs]
      simp only [jsRoundRatMulSqrt, Rat.num_ofNat, Rat.den_ofNat, floorSqrtAdd]
      rw [if_pos (by decide : (0 : ℤ) ≤ 1000000000000)]
      rw [show 4 * (1000000000000 : ℤ).natAbs ^ 2 * (mkRat 1 1000000000000).num.toNat *
          (mkRat 1 1000000000000).den = 2000000000000000000 * 2000000000000000000 by decide]
      rw [Nat.sqrt_eq]
      decide
    have e4 : jsRoundRatMulSqrt (0 : ℚ) (1 / 1000000000000) = 0 := by
      rw [hs]
      simp only [jsRoundRatMulSqrt, floorSqrtAdd]
      norm_num [Rat.num_ofNat, Rat.den_ofNat]
      decide
    simp only [directionKey, cexIncoming, mergeEpsilon]
    norm_num [e3, e4]
  refine ⟨?_, ?_, ?_, ?_, ?_⟩
  · simp only [mergeCollinearSegments, List.length_cons, List.length_nil, List.foldl_cons,
      List.foldl_nil, hkA, hkB]
    norm_num [groupInsert, mergeGroup, sortByProj, insertByProj, projKey, mergeStep,
      pointToLineDistSq, distSq, mergeEpsilon, cexChain, cexIncoming]
  · norm_num [pointToLineDistSq, distSq, mergeEpsilon, cexChain, cexIncoming]
  · norm_num [cexChain, cexIncoming]
  · simp only [cexChain, cexIncoming]
    intro hcontra
    rw [Point2D.mk.injEq] at hcontra
    norm_num at hcontra
  · simp only [cexChain, cexIncoming]
    intro hcontra
    rw [Point2D.mk.injEq] at hcontra
    norm_num at hcontra

/-- C5 as amended: when the incoming segment passes the distance test, the
chain absorbs it without closing, and the new chain endpoint is whichever
of the incoming segment's two endpoints is farther (in Euclidean distance,
compared on squares) from the chain's current endpoint — which need not be
ahead of the current endpoint along the line. -/
theorem mergeStep_extends_to_farther_incoming_endpoint (s : ChainState) (line : Line2D)
    (h : pointToLineDistSq line.p0 s.currentEnd line.p1 < mergeEpsilon ^ 2) :
    ((mergeStep s line).currentEnd = line.p0 ∨ (mergeStep s line).currentEnd = line.p1) ∧
    distSq s.currentEnd (mergeStep s line).currentEnd =
      max (distSq s.currentEnd line.p0) (distSq s.currentEnd line.p1) ∧
    (mergeStep s line).currentStart = s.currentStart ∧
    (mergeStep s line).merged = s.merged := by
  have hstep : mergeStep s line =
      { s with currentEnd :=
          if distSq s.currentEnd line.p1 > distSq s.currentEnd line.p0 then line.p1
          else line.p0 } := by
    unfold mergeStep
    rw [if_pos h]
  rw [hstep]
  by_cases hd : distSq s.currentEnd line.p1 > distSq s.currentEnd line.p0
  · rw [if_pos hd]
    exact ⟨Or.inr rfl, (max_eq_right hd.le).symm, rfl, rfl⟩
  · rw [if_neg hd]
    exact ⟨Or.inl rfl, (max_eq_left (not_lt.mp hd)).symm, rfl, rfl⟩

/-- Witness for the amended C5 theorem at a concrete instance: a chain
ending at the origin absorbing the unit segment from the origin to (1, 0). -/
theorem mergeStep_extends_witness :
    pointToLineDistSq (⟨0, 0⟩ : Point2D) (⟨0, 0⟩ : Point2D) (⟨1, 0⟩ : Point2D) <
      mergeEpsilon ^ 2 ∧
    ((mergeStep ⟨⟨-1, 0⟩, ⟨0, 0⟩, []⟩ ⟨⟨0, 0⟩, ⟨1, 0⟩⟩).currentEnd = (⟨0, 0⟩ : Point2D) ∨
      (mergeStep ⟨⟨-1, 0⟩, ⟨0, 0⟩, []⟩ ⟨⟨0, 0⟩, ⟨1, 0⟩⟩).currentEnd = (⟨1, 0⟩ : Point2D)) := by
  have h : pointToLineDistSq (⟨0, 0⟩ : Point2D) (⟨0, 0⟩ : Point2D) (⟨1, 0⟩ : Point2D) <
      mergeEpsilon ^ 2 := by
    norm_num [pointToLineDistSq, distSq, mergeEpsilon]
  exact ⟨h,
    (mergeStep_extends_to_farther_incoming_endpoint ⟨⟨-1, 0⟩, ⟨0, 0⟩, []⟩ ⟨⟨0, 0⟩, ⟨1, 0⟩⟩ h).1⟩

/-! ## Claim C7 -/

/-- A four-byte read succeeds whenever it fits in the buffer. -/
lemma readUInt32LE_isSome (b : List ℕ) (off : ℕ) (h : off + 4 ≤ b.length) :
    ∃ w, readUInt32LE b off = some w := by
  obtain ⟨v0, e0⟩ : ∃ v, b.get? off = some v :=
    ⟨_, List.get?_eq_get (by omega)⟩
  obtain ⟨v1, e1⟩ : ∃ v, b.get? (off + 1) = some v :=
    ⟨_, List.get?_eq_get (by omega)⟩
  obtain ⟨v2, e2⟩ : ∃ v, b.get? (off + 2) = some v :=
    ⟨_, List.get?_eq_get (by omega)⟩
  obtain ⟨v3, e3⟩ : ∃ v, b.get? (off + 3) = some v :=
    ⟨_, List.get?_eq_get (by omega)⟩
  refine ⟨v0 + 256 * v1 + 65536 * v2 + 16777216 * v3, ?_⟩
  simp only [readUInt32LE, readByte, e0, e1, e2, e3]
  rfl

/-- A four-byte float read succeeds whenever it fits in the buffer. -/
lemma readFloatLE_isSome (b : List ℕ) (off : ℕ) (h : off + 4 ≤ b.length) :
    ∃ q, readFloatLE b off = some q := by
  obtain ⟨w, hw⟩ := readUInt32LE_isSome b off h
  exact ⟨decodeFloat32 w, by simp [readFloatLE, hw]⟩

/-- A successful four-byte read needs its last byte in range. -/
lemma readUInt32LE_length (b : List ℕ) (off : ℕ) (w : ℕ)
    (h : readUInt32LE b off = some w) : off + 4 ≤ b.length := by
  by_contra hlt
  have e3 : b.get? (off + 3) = none := by
    rw [List.get?_eq_none]
    omega
  rcases h0 : b.get? off with - | v0
  · simp only [readUInt32LE, readByte, h0, Option.none_bind] at h
    exact Option.noConfusion h
  rcases h1 : b.get? (off + 1) with - | v1
  · simp only [readUInt32LE, readByte, h0, h1, Option.some_bind, Option.none_bind] at h
    exact Option.noConfusion h
  rcases h2 : b.get? (off + 2) with - | v2
  · simp only [readUInt32LE, readByte, h0, h1, h2, Option.some_bind, Option.none_bind] at h
    exact Option.noConfusion h
  simp only [readUInt32LE, readByte, h0, h1, h2, e3, Option.some_bind,
    Option.none_bind] at h
  exact Option.noConfusion h

/-- Reading triangle `i` succeeds whenever its 50-byte record fits. -/
lemma binStep_isSome (b : List ℕ) (i : ℕ) (h : 84 + 50 * (i + 1) ≤ b.length)
    (st : VtxState × List Face) : ∃ st', binStep b st i = some st' := by
  obtain ⟨q0, e0⟩ := readFloatLE_isSome b (84 + 50 * i) (by omega)
  obtain ⟨q1, e1⟩ := readFloatLE_isSome b (84 + 50 * i + 4) (by omega)
  obtain ⟨q2, e2⟩ := readFloatLE_isSome b (84 + 50 * i + 8) (by omega)
  obtain ⟨q3, e3⟩ := readFloatLE_isSome b (84 + 50 * i + 12) (by omega)
  obtain ⟨q4, e4⟩ := readFloatLE_isSome b (84 + 50 * i + 16) (by omega)
  obtain ⟨q5, e5⟩ := readFloatLE_isSome b (84 + 50 * i + 20) (by omega)
  obtain ⟨q6, e6⟩ := readFloatLE_isSome b (84 + 50 * i + 24) (by omega)
  obtain ⟨q7, e7⟩ := readFloatLE_isSome b (84 + 50 * i + 28) (by omega)
  obtain ⟨q8, e8⟩ := readFloatLE_isSome b (84 + 50 * i + 32) (by omega)
  obtain ⟨q9, e9⟩ := readFloatLE_isSome b (84 + 50 * i + 36) (by omega)
  obtain ⟨q10, e10⟩ := readFloatLE_isSome b (84 + 50 * i + 40) (by omega)
  obtain ⟨q11, e11⟩ := readFloatLE_isSome b (84 + 50 * i + 44) (by omega)
  refine ⟨((addVertex (addVertex (addVertex st.1 ⟨q3, q4, q5⟩).1 ⟨q6, q7, q8⟩).1
      ⟨q9, q10, q11⟩).1,
    st.2 ++ [⟨((addVertex st.1 ⟨q3, q4, q5⟩).2,
      (addVertex (addVertex st.1 ⟨q3, q4, q5⟩).1 ⟨q6, q7, q8⟩).2,
      (addVertex (addVertex (addVertex st.1 ⟨q3, q4, q5⟩).1 ⟨q6, q7, q8⟩).1
        ⟨q9, q10, q11⟩).2), ⟨q0, q1, q2⟩⟩]), ?_⟩
  simp only [binStep, e0, e1, e2, e3, e4, e5, e6, e7, e8, e9, e10, e11]
  rfl

/-- The triangle loop succeeds when every listed triangle record fits. -/
lemma foldlM_binStep_isSome (b : List ℕ) (l : List ℕ)
    (hl : ∀ i ∈ l, 84 + 50 * (i + 1) ≤ b.length) :
    ∀ st, ∃ st', l.foldlM (binStep b) st = some st' := by
  induction l with
  | nil => exact fun st => ⟨st, rfl⟩
  | cons i l ih =>
    intro st
    obtain ⟨st1, e1⟩ := binStep_isSome b i (hl i (List.mem_cons_self i l)) st
    obtain ⟨st2, e2⟩ := ih (fun j hj => hl j (List.mem_cons_of_mem i hj)) st1
    exact ⟨st2, by simp [List.foldlM_cons, e1, e2]⟩

/-- C7: for every buffer handed to the binary parser, it fails when the
buffer is shorter than 84 bytes; given the little-endian triangle count
read at offset 80, it fails when `80 + 4 + count * 50` exceeds the buffer
length, and succeeds otherwise. -/
theorem parseBinarySTL_length_checks (b : List ℕ) :
    (b.length < 84 → parseBinarySTL b = .error "Binary STL file too small") ∧
    (∀ cnt, readUInt32LE b 80 = some cnt →
      (b.length < 80 + 4 + cnt * 50 → parseBinarySTL b = .error "Binary STL truncated") ∧
      (80 + 4 + cnt * 50 ≤ b.length → ∃ m, parseBinarySTL b = .ok m)) := by
  constructor
  · intro h
    simp [parseBinarySTL, if_pos h]
  · intro cnt hcnt
    have hlen : 84 ≤ b.length := readUInt32LE_length b 80 cnt hcnt
    constructor
    · intro htrunc
      simp [parseBinarySTL, if_neg (by omega : ¬b.length < 84), hcnt, if_pos htrunc]
    · intro hfit
      have hok : ∀ i ∈ List.range cnt, 84 + 50 * (i + 1) ≤ b.length := by
        intro i hi
        have hi' : i + 1 ≤ cnt := List.mem_range.mp hi
        have := Nat.mul_le_mul_left 50 hi'
        omega
      obtain ⟨⟨vs, faces⟩, hfold⟩ := foldlM_binStep_isSome b (List.range cnt) hok (⟨[], []⟩, [])
      refine ⟨⟨vs.vertices, faces, calculateBounds vs.vertices⟩, ?_⟩
      simp [parseBinarySTL, if_neg (by omega : ¬b.length < 84), hcnt,
        if_neg (by omega : ¬b.length < 80 + 4 + cnt * 50), hfold]

/-- Witness for C7 at concrete buffers: 83 zero bytes are rejected as too
small; 84 zero bytes decode as zero triangles and succeed. -/
theorem parseBinarySTL_length_checks_witness :
    parseBinarySTL (List.replicate 83 0) = .error "Binary STL file too small" ∧
    ∃ m, parseBinarySTL (List.replicate 84 0) = .ok m := by
  constructor
  · exact (parseBinarySTL_length_checks _).1 (by simp)
  · have h : readUInt32LE (List.replicate 84 0) 80 = some 0 := by decide
    exact ((parseBinarySTL_length_checks _).2 0 h).2 (by simp)

/-! ## Claim C4 -/

/-- The bounds fold computes the six componentwise min/max folds. -/
lemma foldl_boundsStep (l : List Vector3) (b : Bounds) :
    l.foldl boundsStep b =
      ⟨⟨l.foldl (fun a v => min a v.x) b.min.x,
        l.foldl (fun a v => min a v.y) b.min.y,
        l.foldl (fun a v => min a v.z) b.min.z⟩,
       ⟨l.foldl (fun a v => max a v.x) b.max.x,
        l.foldl (fun a v => max a v.y) b.max.y,
        l.foldl (fun a v => max a v.z) b.max.z⟩⟩ := by
  induction l generalizing b with
  | nil => rfl
  | cons v l ih => simp [List.foldl_cons, boundsStep, ih]

/-- A running min never exceeds its initial value. -/
lemma foldl_min_le_init (g : Vector3 → ℚ) (l : List Vector3) (a : ℚ) :
    l.foldl (fun acc v => min acc (g v)) a ≤ a := by
  induction l generalizing a with
  | nil => exact le_rfl
  | cons v l ih => exact le_trans (ih _) (min_le_left _ _)

/-- A running max never drops below its initial value. -/
lemma le_foldl_max_init (g : Vector3 → ℚ) (l : List Vector3) (a : ℚ) :
    a ≤ l.foldl (fun acc v => max acc (g v)) a := by
  induction l generalizing a with
  | nil => exact le_rfl
  | cons v l ih => exact le_trans (le_max_left _ _) (ih _)

/-- A running min is a lower bound of every visited value. -/
lemma foldl_min_le_mem (g : Vector3 → ℚ) (l : List Vector3) (a : ℚ) (v : Vector3)
    (hv : v ∈ l) : l.foldl (fun acc v => min acc (g v)) a ≤ g v := by
  induction l generalizing a with
  | nil => cases hv
  | cons u l ih =>
    rcases List.mem_cons.mp hv with h | h
    · subst h
      exact le_trans (foldl_min_le_init g l _) (min_le_right _ _)
    · exact ih _ h

/-- A running max is an upper bound of every visited value. -/
lemma le_foldl_max_mem (g : Vector3 → ℚ) (l : List Vector3) (a : ℚ) (v : Vector3)
    (hv : v ∈ l) : g v ≤ l.foldl (fun acc v => max acc (g v)) a := by
  induction l generalizing a with
  | nil => cases hv
  | cons u l ih =>
    rcases List.mem_cons.mp hv with h | h
    · subst h
      exact le_trans (le_max_right _ _) (le_foldl_max_init g l _)
    · exact ih _ h

/-- A running min commutes with a monotone affine reparametrization. -/
lemma foldl_min_affine (g : Vector3 → ℚ) (k c : ℚ) (hk : 0 ≤ k) (l : List Vector3) (a : ℚ) :
    l.foldl (fun acc v => min acc ((g v - c) * k)) ((a - c) * k) =
      (l.foldl (fun acc v => min acc (g v)) a - c) * k := by
  have hmono : Monotone fun x : ℚ => (x - c) * k := fun x y hxy =>
    mul_le_mul_of_nonneg_right (by linarith) hk
  induction l generalizing a with
  | nil => rfl
  | cons v l ih =>
    simp only [List.foldl_cons]
    rw [← ih (min a (g v)), hmono.map_min]

/-- A running max commutes with a monotone affine reparametrization. -/
lemma foldl_max_affine (g : Vector3 → ℚ) (k c : ℚ) (hk : 0 ≤ k) (l : List Vector3) (a : ℚ) :
    l.foldl (fun acc v => max acc ((g v - c) * k)) ((a - c) * k) =
      (l.foldl (fun acc v => max acc (g v)) a - c) * k := by
  have hmono : Monotone fun x : ℚ => (x - c) * k := fun x y hxy =>
    mul_le_mul_of_nonneg_right (by linarith) hk
  induction l generalizing a with
  | nil => rfl
  | cons v l ih =>
    simp only [List.foldl_cons]
    rw [← ih (max a (g v)), hmono.map_max]

/-- Both parse paths cache exactly the bounds of their vertex list. -/
lemma parseRaw_bounds (input : STLInput) (m1 : Mesh) (h : parseRaw input = .ok m1) :
    m1.bounds = calculateBounds m1.vertices := by
  cases input with
  | ascii vm nm =>
    simp only [parseRaw, parseAsciiSTL] at h
    split at h
    · exact absurd h (by simp)
    · cases h
      rfl
  | binary b =>
    simp only [parseRaw, parseBinarySTL] at h
    split at h
    · exact absurd h (by simp)
    · split at h
      · exact absurd h (by simp)
      · split at h
        · exact absurd h (by simp)
        · split at h
          · cases h
            rfl
          · exact absurd h (by simp)

/-- Unpacking a successful normalization. -/
lemma normalizeMesh_ok (mesh m : Mesh) (hok : normalizeMesh mesh = .ok m) :
    meshSize mesh ≠ 0 ∧ m.vertices = mesh.vertices.map (normMap mesh) ∧
    m.faces = mesh.faces ∧ m.bounds = calculateBounds (mesh.vertices.map (normMap mesh)) := by
  unfold normalizeMesh at hok
  by_cases hs : meshSize mesh = 0
  · rw [if_pos hs] at hok
    exact absurd hok (by simp)
  · rw [if_neg hs] at hok
    cases hok
    exact ⟨hs, rfl, rfl, rfl⟩

/-- The normalized-bounds facts, proven against the mesh handed to
`normalizeMesh`: the recomputed box brackets zero on every axis and its
largest extent is exactly one. -/
lemma normalizeMesh_bounds (mesh m : Mesh)
    (hb : mesh.bounds = calculateBounds mesh.vertices)
    (hok : normalizeMesh mesh = .ok m) :
    m.bounds.min.x ≤ 0 ∧ 0 ≤ m.bounds.max.x ∧
    m.bounds.min.y ≤ 0 ∧ 0 ≤ m.bounds.max.y ∧
    m.bounds.min.z ≤ 0 ∧ 0 ≤ m.bounds.max.z ∧
    meshSize m = 1 := by
  obtain ⟨hsz, -, -, hmb⟩ := normalizeMesh_ok mesh m hok
  match hverts : mesh.vertices with
  | [] =>
    exfalso
    rw [hverts] at hb
    apply hsz
    simp only [meshSize, hb, calculateBounds]
    norm_num
  | v :: rest =>
    rw [hverts] at hb hmb
    set minX := rest.foldl (fun a u => min a u.x) v.x with hminX
    set minY := rest.foldl (fun a u => min a u.y) v.y with hminY
    set minZ := rest.foldl (fun a u => min a u.z) v.z with hminZ
    set maxX := rest.foldl (fun a u => max a u.x) v.x with hmaxX
    set maxY := rest.foldl (fun a u => max a u.y) v.y with hmaxY
    set maxZ := rest.foldl (fun a u => max a u.z) v.z with hmaxZ
    have hbounds : mesh.bounds = ⟨⟨minX, minY, minZ⟩, ⟨maxX, maxY, maxZ⟩⟩ := by
      rw [hb]
      simp only [calculateBounds]
      rw [foldl_boundsStep]
    have hexX : minX ≤ maxX :=
      le_trans (foldl_min_le_init _ rest v.x) (le_foldl_max_init _ rest v.x)
    have hexY : minY ≤ maxY :=
      le_trans (foldl_min_le_init _ rest v.y) (le_foldl_max_init _ rest v.y)
    have hexZ : minZ ≤ maxZ :=
      le_trans (foldl_min_le_init _ rest v.z) (le_foldl_max_init _ rest v.z)
    have hsize : meshSize mesh = max (maxX - minX) (max (maxY - minY) (maxZ - minZ)) := by
      simp only [meshSize, hbounds]
    have hsize0 : 0 ≤ meshSize mesh := by
      rw [hsize]
      exact le_trans (by linarith) (le_max_left _ _)
    have hpos : 0 < meshSize mesh := lt_of_le_of_ne hsize0 (Ne.symm hsz)
    have hk0 : 0 ≤ normScale mesh := le_of_lt (by rw [normScale]; exact one_div_pos.mpr hpos)
    have hcx : (normCenter mesh).x = (minX + maxX) / 2 := by rw [normCenter, hbounds]
    have hcy : (normCenter mesh).y = (minY + maxY) / 2 := by rw [normCenter, hbounds]
    have hcz : (normCenter mesh).z = (minZ + maxZ) / 2 := by rw [normCenter, hbounds]
    have hminx : m.bounds.min.x = (minX - (normCenter mesh).x) * normScale mesh := by
      rw [hmb]
      simp only [List.map_cons, calculateBounds]
      rw [foldl_boundsStep]
      simp only [List.foldl_map, normMap]
      exact foldl_min_affine (fun u => u.x) (normScale mesh) (normCenter mesh).x hk0 rest v.x
    have hminy : m.bounds.min.y = (minY - (normCenter mesh).y) * normScale mesh := by
      rw [hmb]
      simp only [List.map_cons, calculateBounds]
      rw [foldl_boundsStep]
      simp only [List.foldl_map, normMap]
      exact foldl_min_affine (fun u => u.y) (normScale mesh) (normCenter mesh).y hk0 rest v.y
    have hminz : m.bounds.min.z = (minZ - (normCenter mesh).z) * normScale mesh := by
      rw [hmb]
      simp only [List.map_cons, calculateBounds]
      rw [foldl_boundsStep]
      simp only [List.foldl_map, normMap]
      exact foldl_min_affine (fun u => u.z) (normScale mesh) (normCenter mesh).z hk0 rest v.z
    have hmaxx : m.bounds.max.x = (maxX - (normCenter mesh).x) * normScale mesh := by
      rw [hmb]
      simp only [List.map_cons, calculateBounds]
      rw [foldl_boundsStep]
      simp only [List.foldl_map, normMap]
      exact foldl_max_affine (fun u => u.x) (normScale mesh) (normCenter mesh).x hk0 rest v.x
    have hmaxy : m.bounds.max.y = (maxY - (normCenter mesh).y) * normScale mesh := by
      rw [hmb]
      simp only [List.map_cons, calculateBounds]
      rw [foldl_boundsStep]
      simp only [List.foldl_map, normMap]
      exact foldl_max_affine (fun u => u.y) (normScale mesh) (normCenter mesh).y hk0 rest v.y
    have hmaxz : m.bounds.max.z = (maxZ - (normCenter mesh).z) * normScale mesh := by
      rw [hmb]
      simp only [List.map_cons, calculateBounds]
      rw [foldl_boundsStep]
      simp only [List.foldl_map, normMap]
      exact foldl_max_affine (fun u => u.z) (normScale mesh) (normCenter mesh).z hk0 rest v.z
    have hprodX : 0 ≤ (maxX - minX) / 2 * normScale mesh :=
      mul_nonneg (by linarith) hk0
    have hprodY : 0 ≤ (maxY - minY) / 2 * normScale mesh :=
      mul_nonneg (by linarith) hk0
    have hprodZ : 0 ≤ (maxZ - minZ) / 2 * normScale mesh :=
      mul_nonneg (by linarith) hk0
    refine ⟨?_, ?_, ?_, ?_, ?_, ?_, ?_⟩
    · rw [hminx, hcx]
      linarith [hprodX]
    · rw [hmaxx, hcx]
      linarith [hprodX]
    · rw [hminy, hcy]
      linarith [hprodY]
    · rw [hmaxy, hcy]
      linarith [hprodY]
    · rw [hminz, hcz]
      linarith [hprodZ]
    · rw [hmaxz, hcz]
      linarith [hprodZ]
    · have e1 : (maxX - (normCenter mesh).x) * normScale mesh -
          (minX - (normCenter mesh).x) * normScale mesh = (maxX - minX) * normScale mesh := by
        ring
      have e2 : (maxY - (normCenter mesh).y) * normScale mesh -
          (minY - (normCenter mesh).y) * normScale mesh = (maxY - minY) * normScale mesh := by
        ring
      have e3 : (maxZ - (normCenter mesh).z) * normScale mesh -
          (minZ - (normCenter mesh).z) * normScale mesh = (maxZ - minZ) * normScale mesh := by
        ring
      have hms : meshSize m = max (maxX - minX) (max (maxY - minY) (maxZ - minZ)) *
          normScale mesh := by
        rw [meshSize, hminx, hminy, hminz, hmaxx, hmaxy, hmaxz, e1, e2, e3,
          ← max_mul_of_nonneg _ _ hk0, ← max_mul_of_nonneg _ _ hk0]
      rw [hms, ← hsize, normScale]
      field_simp

/-- C4: whenever `parseSTL` succeeds, the returned mesh's bounding box
brackets zero on every axis (`min ≤ 0 ≤ max` for x, y and z) and its
largest axis extent is within 0.1 of 1.0 (in exact arithmetic it is
exactly 1); and whenever the pre-normalization bounding-box size is
exactly zero, `parseSTL` fails. -/
theorem parseSTL_normalization_postcondition :
    (∀ input m, parseSTL input = .ok m →
      m.bounds.min.x ≤ 0 ∧ 0 ≤ m.bounds.max.x ∧
      m.bounds.min.y ≤ 0 ∧ 0 ≤ m.bounds.max.y ∧
      m.bounds.min.z ≤ 0 ∧ 0 ≤ m.bounds.max.z ∧
      |meshSize m - 1| ≤ 1 / 10) ∧
    (∀ input m1, parseRaw input = .ok m1 → meshSize m1 = 0 →
      ∃ msg, parseSTL input = .error msg) := by
  constructor
  · intro input m hok
    rcases hraw : parseRaw input with msg | m1
    · exfalso
      have hterr : parseSTL input = .error msg := by
        unfold parseSTL
        rw [hraw]
        rfl
      rw [hterr] at hok
      exact Except.noConfusion hok
    · have hps : parseSTL input =
          (if (removeDegenerate m1).faces.length = 0 then .error "No valid faces in STL"
           else normalizeMesh (removeDegenerate m1)) := by
        unfold parseSTL
        rw [hraw]
        rfl
      by_cases hf : (removeDegenerate m1).faces.length = 0
      · rw [hps, if_pos hf] at hok
        exact absurd hok (by simp)
      · rw [hps, if_neg hf] at hok
        have hb : (removeDegenerate m1).bounds =
            calculateBounds (removeDegenerate m1).vertices :=
          parseRaw_bounds input m1 hraw
        obtain ⟨h1, h2, h3, h4, h5, h6, h7⟩ := normalizeMesh_bounds _ m hb hok
        refine ⟨h1, h2, h3, h4, h5, h6, ?_⟩
        rw [h7]
        norm_num
  · intro input m1 hraw hzero
    have hps : parseSTL input =
        (if (removeDegenerate m1).faces.length = 0 then .error "No valid faces in STL"
         else normalizeMesh (removeDegenerate m1)) := by
      unfold parseSTL
      rw [hraw]
      rfl
    by_cases hf : (removeDegenerate m1).faces.length = 0
    · exact ⟨_, by rw [hps, if_pos hf]⟩
    · refine ⟨"Mesh has zero size", ?_⟩
      rw [hps, if_neg hf]
      have hzero' : meshSize (removeDegenerate m1) = 0 := hzero
      simp only [normalizeMesh, hzero', if_pos]

/-! ## Claim C8 -/

/-- Well-formedness of the deduplication state: the vertex list has no
repeated triple, and the key map knows exactly the triples in the list. -/
def GoodVtx (s : VtxState) : Prop :=
  s.vertices.Nodup ∧ ∀ v, (lookupVtx s.vertexMap v).isSome ↔ v ∈ s.vertices

/-- The empty deduplication state is well-formed. -/
lemma goodVtx_nil : GoodVtx ⟨[], []⟩ := by
  constructor
  · exact List.nodup_nil
  · intro v
    simp [lookupVtx]

/-- Looking up in an extended map: the old map wins, then the new key. -/
lemma lookupVtx_append (m : List (Vector3 × ℕ)) (v : Vector3) (n : ℕ) (u : Vector3) :
    lookupVtx (m ++ [(v, n)]) u =
      match lookupVtx m u with
      | some i => some i
      | none => if v = u then some n else none := by
  induction m with
  | nil => rfl
  | cons p rest ih =>
    rcases p with ⟨k, i⟩
    by_cases hk : k = u
    · simp [lookupVtx, hk]
    · simp only [List.cons_append, lookupVtx, if_neg hk]
      exact ih

/-- `addVertex` keeps the deduplication state well-formed. -/
lemma addVertex_good (s : VtxState) (v : Vector3) (h : GoodVtx s) :
    GoodVtx (addVertex s v).1 := by
  unfold addVertex
  cases hl : lookupVtx s.vertexMap v with
  | some i => exact h
  | none =>
    have hv : v ∉ s.vertices := by
      intro hm
      have := (h.2 v).mpr hm
      rw [hl] at this
      simp at this
    constructor
    · simp only [List.nodup_append, List.nodup_cons, List.not_mem_nil, not_false_iff,
        List.nodup_nil, and_true, true_and]
      exact ⟨h.1, fun u hu hc => hv (by rwa [List.mem_singleton.mp hc] at hu)⟩
    · intro u
      rw [lookupVtx_append]
      cases hu : lookupVtx s.vertexMap u with
      | some i =>
        have : u ∈ s.vertices := (h.2 u).mp (by rw [hu]; rfl)
        simp [List.mem_append, this]
      | none =>
        have hnm : u ∉ s.vertices := fun hm => by
          have := (h.2 u).mpr hm
          rw [hu] at this
          simp at this
        by_cases huv : v = u
        · simp [huv, List.mem_append]
        · rw [if_neg huv]
          simp only [Option.isSome_none, Bool.false_eq_true, false_iff, List.mem_append,
            List.mem_singleton]
          rintro (hc | hc)
          · exact hnm hc
          · exact huv hc.symm

/-- Each ASCII loop step threads the deduplication state through
`addVertex` only. -/
lemma asciiStep_vs (nm : List Vector3) (s : AsciiState) (v : Vector3) :
    (asciiStep nm s v).vs = (addVertex s.vs v).1 := by
  unfold asciiStep
  by_cases h0 : s.vertexInFace = 0
  · simp [h0]
  · by_cases h1 : s.vertexInFace = 1 <;> simp [h0, h1]

/-- The ASCII loop keeps the deduplication state well-formed. -/
lemma foldl_asciiStep_good (nm : List Vector3) (l : List Vector3) (s : AsciiState)
    (h : GoodVtx s.vs) : GoodVtx (l.foldl (asciiStep nm) s).vs := by
  induction l generalizing s with
  | nil => exact h
  | cons v l ih =>
    refine ih (asciiStep nm s v) ?_
    rw [asciiStep_vs]
    exact addVertex_good s.vs v h

/-- One binary triangle step threads the deduplication state through three
`addVertex` calls. -/
lemma bind_some_elim {α β : Type} {o : Option α} {f : α → Option β} {b : β}
    (h : o >>= f = some b) : ∃ a, o = some a ∧ f a = some b := by
  cases o with
  | none => exact Option.noConfusion h
  | some a => exact ⟨a, rfl, h⟩

/-- One binary triangle step threads the deduplication state through three
`addVertex` calls. -/
lemma binStep_good (b : List ℕ) (st : VtxState × List Face) (i : ℕ)
    (st' : VtxState × List Face) (h : binStep b st i = some st') (hg : GoodVtx st.1) :
    GoodVtx st'.1 := by
  unfold binStep at h
  obtain ⟨q0, h0, h⟩ := bind_some_elim h
  obtain ⟨q1, h1, h⟩ := bind_some_elim h
  obtain ⟨q2, h2, h⟩ := bind_some_elim h
  obtain ⟨q3, h3, h⟩ := bind_some_elim h
  obtain ⟨q4, h4, h⟩ := bind_some_elim h
  obtain ⟨q5, h5, h⟩ := bind_some_elim h
  obtain ⟨q6, h6, h⟩ := bind_some_elim h
  obtain ⟨q7, h7, h⟩ := bind_some_elim h
  obtain ⟨q8, h8, h⟩ := bind_some_elim h
  obtain ⟨q9, h9, h⟩ := bind_some_elim h
  obtain ⟨q10, h10, h⟩ := bind_some_elim h
  obtain ⟨q11, h11, h⟩ := bind_some_elim h
  cases h
  exact addVertex_good _ _ (addVertex_good _ _ (addVertex_good _ _ hg))

/-- The binary triangle loop keeps the deduplication state well-formed. -/
lemma foldlM_binStep_good (b : List ℕ) (l : List ℕ) (st : VtxState × List Face)
    (hg : GoodVtx st.1) (st' : VtxState × List Face)
    (hf : l.foldlM (binStep b) st = some st') : GoodVtx st'.1 := by
  induction l generalizing st with
  | nil =>
    cases hf
    exact hg
  | cons i l ih =>
    rw [List.foldlM_cons] at hf
    cases hstep : binStep b st i with
    | none =>
      rw [hstep] at hf
      exact Option.noConfusion hf
    | some st1 =>
      rw [hstep] at hf
      exact ih st1 (binStep_good b st i st1 hstep hg) hf

/-- Both parse paths produce a vertex list without repeated triples. -/
lemma parseRaw_nodup (input : STLInput) (m1 : Mesh) (h : parseRaw input = .ok m1) :
    m1.vertices.Nodup := by
  cases input with
  | ascii vm nm =>
    simp only [parseRaw, parseAsciiSTL] at h
    split at h
    · exact absurd h (by simp)
    · cases h
      exact (foldl_asciiStep_good nm vm asciiInit goodVtx_nil).1
  | binary b =>
    simp only [parseRaw, parseBinarySTL] at h
    split at h
    · exact absurd h (by simp)
    · split at h
      · exact absurd h (by simp)
      · split at h
        · exact absurd h (by simp)
        · split at h
          · next vs faces hfold =>
            cases h
            exact (foldlM_binStep_good b _ _ goodVtx_nil _ hfold).1
          · exact absurd h (by simp)

/-- The normalization transform is injective when the scale is nonzero. -/
lemma normMap_injective (mesh : Mesh) (hk : normScale mesh ≠ 0) :
    Function.Injective (normMap mesh) := by
  intro a b h
  simp only [normMap, Vector3.mk.injEq] at h
  obtain ⟨h1, h2, h3⟩ := h
  have e1 : a.x = b.x := by
    have := mul_right_cancel₀ hk h1
    linarith
  have e2 : a.y = b.y := by
    have := mul_right_cancel₀ hk h2
    linarith
  have e3 : a.z = b.z := by
    have := mul_right_cancel₀ hk h3
    linarith
  cases a
  cases b
  simp only [Vector3.mk.injEq]
  exact ⟨e1, e2, e3⟩

/-- C8: every mesh returned by `parseSTL` (either parse path, after
normalization) has pairwise-distinct vertex coordinate triples: ingestion
deduplicates by exact coordinate key, and the normalization transform is
injective, so no two entries of the final vertex list are equal. -/
theorem parseSTL_vertices_nodup (input : STLInput) (m : Mesh)
    (hok : parseSTL input = .ok m) : m.vertices.Nodup := by
  rcases hraw : parseRaw input with msg | m1
  · exfalso
    have hterr : parseSTL input = .error msg := by
      unfold parseSTL
      rw [hraw]
      rfl
    rw [hterr] at hok
    exact Except.noConfusion hok
  · have hps : parseSTL input =
        (if (removeDegenerate m1).faces.length = 0 then .error "No valid faces in STL"
         else normalizeMesh (removeDegenerate m1)) := by
      unfold parseSTL
      rw [hraw]
      rfl
    by_cases hf : (removeDegenerate m1).faces.length = 0
    · rw [hps, if_pos hf] at hok
      exact absurd hok (by simp)
    · rw [hps, if_neg hf] at hok
      obtain ⟨hsz, hverts, -, -⟩ := normalizeMesh_ok _ m hok
      have hscale : normScale (removeDegenerate m1) ≠ 0 := by
        rw [normScale]
        exact one_div_ne_zero hsz
      have hnd : (removeDegenerate m1).vertices.Nodup := parseRaw_nodup input m1 hraw
      rw [hverts]
      exact hnd.map (normMap_injective _ hscale)

/-! ## Shared concrete example: a single right triangle in ASCII form -/

/-- Vertex triples of a one-triangle ASCII input. -/
def exVM : List Vector3 :=
  [⟨0, 0, 0⟩, ⟨1, 0, 0⟩, ⟨0, 1, 0⟩]

/-- Normal triples of the one-triangle ASCII input. -/
def exNM : List Vector3 :=
  [⟨0, 0, 1⟩]

/-- The mesh `parseSTL` produces for the one-triangle input. -/
def exMesh : Mesh :=
  ⟨[⟨-1 / 2, -1 / 2, 0⟩, ⟨1 / 2, -1 / 2, 0⟩, ⟨-1 / 2, 1 / 2, 0⟩],
   [⟨(0, 1, 2), ⟨0, 0, 1⟩⟩],
   ⟨⟨-1 / 2, -1 / 2, 0⟩, ⟨1 / 2, 1 / 2, 0⟩⟩⟩

/-- Concrete evaluation of the full decoder on the one-triangle input. -/
lemma exParse : parseSTL (.ascii exVM exNM) = .ok exMesh := by
  have h1 : parseRaw (.ascii exVM exNM) =
      .ok ⟨[⟨0, 0, 0⟩, ⟨1, 0, 0⟩, ⟨0, 1, 0⟩], [⟨(0, 1, 2), ⟨0, 0, 1⟩⟩],
        ⟨⟨0, 0, 0⟩, ⟨1, 1, 0⟩⟩⟩ := by
    norm_num [parseRaw, parseAsciiSTL, exVM, exNM, asciiStep, asciiInit, addVertex,
      lookupVtx, calculateBounds, boundsStep, Vector3.mk.injEq]
  unfold parseSTL
  rw [h1]
  show (if (removeDegenerate _).faces.length = 0 then _ else _) = _
  norm_num [removeDegenerate, faceIsValid, meshVertex, triangleCrossSq, normalizeMesh,
    meshSize, normCenter, normScale, normMap, exMesh, calculateBounds, boundsStep,
    Vector3.mk.injEq]

/-- Witness for C4: the one-triangle input parses successfully, and the
theorem's bounds postconditions hold for its mesh. -/
theorem parseSTL_normalization_witness :
    parseSTL (.ascii exVM exNM) = .ok exMesh ∧
    (exMesh.bounds.min.x ≤ 0 ∧ 0 ≤ exMesh.bounds.max.x ∧
     exMesh.bounds.min.y ≤ 0 ∧ 0 ≤ exMesh.bounds.max.y ∧
     exMesh.bounds.min.z ≤ 0 ∧ 0 ≤ exMesh.bounds.max.z ∧
     |meshSize exMesh - 1| ≤ 1 / 10) :=
  ⟨exParse, parseSTL_normalization_postcondition.1 _ exMesh exParse⟩

/-- Witness for C8: the one-triangle input parses successfully, and its
mesh's vertex list has no duplicate triple. -/
theorem parseSTL_vertices_nodup_witness :
    parseSTL (.ascii exVM exNM) = .ok exMesh ∧ exMesh.vertices.Nodup :=
  ⟨exParse, parseSTL_vertices_nodup _ exMesh exParse⟩

/-! ## Claims C9 and C10: the ASCII loop invariant -/

/-- Indexing with a default hits a member when in range. -/
lemma getD_mem {α : Type} (l : List α) (i : ℕ) (d : α) (h : i < l.length) :
    l.getD i d ∈ l := by
  rw [List.getD_eq_getElem _ _ h]
  exact List.getElem_mem h

/-- Indexing the appended element of a one-element extension. -/
lemma getD_concat_length {α : Type} (l : List α) (a d : α) :
    (l ++ [a]).getD l.length d = a := by
  rw [List.getD_eq_getElem?_getD, List.getElem?_append_right (le_refl _)]
  simp

/-- In range, the default of `getD` is irrelevant. -/
lemma getD_irrel {α : Type} (l : List α) (i : ℕ) (d d' : α) (h : i < l.length) :
    l.getD i d = l.getD i d' := by
  rw [List.getD_eq_getElem _ _ h, List.getD_eq_getElem _ _ h]

/-- The key map sends every known key to an in-range index holding it. -/
def GoodIdx (s : VtxState) : Prop :=
  ∀ v i, lookupVtx s.vertexMap v = some i →
    i < s.vertices.length ∧ s.vertices.getD i ⟨0, 0, 0⟩ = v

/-- The empty deduplication state has a correct (empty) key map. -/
lemma goodIdx_nil : GoodIdx ⟨[], []⟩ := by
  intro v i h
  simp [lookupVtx] at h

/-- `addVertex` keeps the key map correct. -/
lemma addVertex_goodIdx (s : VtxState) (v : Vector3) (h : GoodIdx s) :
    GoodIdx (addVertex s v).1 := by
  unfold addVertex
  cases hl : lookupVtx s.vertexMap v with
  | some i => exact h
  | none =>
    intro u i hu
    simp only [lookupVtx_append] at hu
    cases hud : lookupVtx s.vertexMap u with
    | some j =>
      simp only [hud] at hu
      have hji : j = i := Option.some.inj hu
      subst hji
      obtain ⟨hb, hg⟩ := h u j hud
      refine ⟨by simp only [List.length_append, List.length_singleton]; omega, ?_⟩
      rw [List.getD_append _ _ _ _ hb]
      exact hg
    | none =>
      simp only [hud] at hu
      by_cases huv : v = u
      · rw [if_pos huv] at hu
        cases hu
        refine ⟨by simp, ?_⟩
        rw [← huv]
        exact getD_concat_length s.vertices v _
      · rw [if_neg huv] at hu
        exact Option.noConfusion hu

/-- The index `addVertex` returns points at the inserted triple, and the
vertex list only ever grows by appending. -/
lemma addVertex_idx (s : VtxState) (v : Vector3) (h : GoodIdx s) :
    (addVertex s v).2 < (addVertex s v).1.vertices.length ∧
    (addVertex s v).1.vertices.getD (addVertex s v).2 ⟨0, 0, 0⟩ = v ∧
    ∃ tail, (addVertex s v).1.vertices = s.vertices ++ tail := by
  unfold addVertex
  cases hl : lookupVtx s.vertexMap v with
  | some i =>
    obtain ⟨hb, hg⟩ := h v i hl
    exact ⟨hb, hg, [], by simp⟩
  | none =>
    exact ⟨by simp, getD_concat_length s.vertices v _, [v], rfl⟩

/-- Membership after `addVertex`: the old triples plus the new one. -/
lemma addVertex_mem (s : VtxState) (v : Vector3) (h : GoodVtx s) (u : Vector3) :
    u ∈ (addVertex s v).1.vertices ↔ u ∈ s.vertices ∨ u = v := by
  unfold addVertex
  cases hl : lookupVtx s.vertexMap v with
  | some i =>
    have hv : v ∈ s.vertices := (h.2 v).mp (by rw [hl]; rfl)
    constructor
    · exact Or.inl
    · rintro (hm | rfl)
      exacts [hm, hv]
  | none => simp [List.mem_append]

/-- The normal assigned to the `j`-th face: the `j`-th parsed normal when
available, otherwise the most recently parsed one, otherwise zero. -/
def normAt (nm : List Vector3) (j : ℕ) : Vector3 :=
  (nm.take (j + 1)).getLastD ⟨0, 0, 0⟩

/-- The last element of a truncated prefix, in range. -/
lemma getLastD_take_succ {α : Type} (l : List α) (j : ℕ) (h : j < l.length) (d : α) :
    (l.take (j + 1)).getLastD d = l.getD j d := by
  induction l generalizing j d with
  | nil => simp at h
  | cons a l ih =>
    cases j with
    | zero => simp [List.take_succ_cons, List.getLastD_cons]
    | succ j =>
      rw [List.take_succ_cons, List.getLastD_cons, List.getD_cons_succ]
      have hj : j < l.length := by simpa using h
      rw [ih j hj a]
      exact getD_irrel l j a d hj

/-- In range, `normAt` is the indexed normal. -/
lemma normAt_lt (nm : List Vector3) (j : ℕ) (h : j < nm.length) :
    normAt nm j = nm.getD j ⟨0, 0, 0⟩ :=
  getLastD_take_succ nm j h ⟨0, 0, 0⟩

/-- Past the end, `normAt` is the last parsed normal (or the zero default
for an empty list). -/
lemma normAt_ge (nm : List Vector3) (j : ℕ) (h : nm.length ≤ j) :
    normAt nm j = nm.getLastD ⟨0, 0, 0⟩ := by
  unfold normAt
  rw [List.take_of_length_le (by omega)]

/-- The loop invariant of `parseAsciiSTL` after consuming the vertex
triples of `pre`: the cycle counters match the consumed count, the faces
built so far reference exactly the coordinates of the consumed groups of
three and carry the expected normals, the tracked current normal is the
last one loaded, and a partially built face references the coordinates of
the current group's consumed vertices. -/
structure AsciiInv (nm pre : List Vector3) (s : AsciiState) : Prop where
  vif : s.vertexInFace = pre.length % 3
  fidx : s.faceIndex = pre.length / 3
  flen : s.faces.length = pre.length / 3
  good : GoodVtx s.vs
  gidx : GoodIdx s.vs
  mem : ∀ v, v ∈ s.vs.vertices ↔ v ∈ pre
  faceProp : ∀ j, j < s.faces.length →
    ((s.faces.getD j defaultFace).vertices.1 < s.vs.vertices.length ∧
     s.vs.vertices.getD (s.faces.getD j defaultFace).vertices.1 ⟨0, 0, 0⟩ =
       pre.getD (3 * j) ⟨0, 0, 0⟩) ∧
    ((s.faces.getD j defaultFace).vertices.2.1 < s.vs.vertices.length ∧
     s.vs.vertices.getD (s.faces.getD j defaultFace).vertices.2.1 ⟨0, 0, 0⟩ =
       pre.getD (3 * j + 1) ⟨0, 0, 0⟩) ∧
    ((s.faces.getD j defaultFace).vertices.2.2 < s.vs.vertices.length ∧
     s.vs.vertices.getD (s.faces.getD j defaultFace).vertices.2.2 ⟨0, 0, 0⟩ =
       pre.getD (3 * j + 2) ⟨0, 0, 0⟩) ∧
    (s.faces.getD j defaultFace).normal = normAt nm j
  curNorm : s.currentNormal = (nm.take ((pre.length + 2) / 3)).getLastD ⟨0, 0, 0⟩
  part1 : pre.length % 3 = 1 →
    s.currentFaceVertices.1 < s.vs.vertices.length ∧
    s.vs.vertices.getD s.currentFaceVertices.1 ⟨0, 0, 0⟩ =
      pre.getD (3 * (pre.length / 3)) ⟨0, 0, 0⟩
  part2 : pre.length % 3 = 2 →
    (s.currentFaceVertices.1 < s.vs.vertices.length ∧
     s.vs.vertices.getD s.currentFaceVertices.1 ⟨0, 0, 0⟩ =
       pre.getD (3 * (pre.length / 3)) ⟨0, 0, 0⟩) ∧
    (s.currentFaceVertices.2.1 < s.vs.vertices.length ∧
     s.vs.vertices.getD s.currentFaceVertices.2.1 ⟨0, 0, 0⟩ =
       pre.getD (3 * (pre.length / 3) + 1) ⟨0, 0, 0⟩)

/-- The initial state satisfies the invariant for the empty prefix. -/
lemma asciiInv_init (nm : List Vector3) : AsciiInv nm [] asciiInit := by
  refine ⟨rfl, rfl, rfl, goodVtx_nil, goodIdx_nil, ?_, ?_, ?_, ?_, ?_⟩
  · intro v
    simp [asciiInit]
  · intro j hj
    simp [asciiInit] at hj
  · simp [asciiInit]
  · intro h
    simp at h
  · intro h
    simp at h

/-- The first branch of the loop body (`vertexInFace = 0`). -/
lemma asciiStep_eq0 (nm : List Vector3) (s : AsciiState) (v : Vector3)
    (h : s.vertexInFace = 0) :
    asciiStep nm s v =
      { s with vs := (addVertex s.vs v).1,
               currentFaceVertices := ((addVertex s.vs v).2, 0, 0),
               currentNormal :=
                 match nm.get? s.faceIndex with
                 | some n => n
                 | none => s.currentNormal,
               vertexInFace := 1 } := by
  unfold asciiStep
  rw [if_pos h]

/-- The second branch of the loop body (`vertexInFace = 1`). -/
lemma asciiStep_eq1 (nm : List Vector3) (s : AsciiState) (v : Vector3)
    (h : s.vertexInFace = 1) :
    asciiStep nm s v =
      { s with vs := (addVertex s.vs v).1,
               currentFaceVertices :=
                 (s.currentFaceVertices.1, (addVertex s.vs v).2, s.currentFaceVertices.2.2),
               vertexInFace := 2 } := by
  unfold asciiStep
  rw [if_neg (by omega), if_pos h]

/-- The third branch of the loop body (`vertexInFace` not 0 or 1). -/
lemma asciiStep_eq2 (nm : List Vector3) (s : AsciiState) (v : Vector3)
    (h0 : s.vertexInFace ≠ 0) (h1 : s.vertexInFace ≠ 1) :
    asciiStep nm s v =
      { s with vs := (addVertex s.vs v).1,
               faces := s.faces ++
                 [⟨(s.currentFaceVertices.1, s.currentFaceVertices.2.1, (addVertex s.vs v).2),
                   s.currentNormal⟩],
               faceIndex := s.faceIndex + 1,
               vertexInFace := 0 } := by
  unfold asciiStep
  rw [if_neg h0, if_neg h1]

/-- One loop step preserves the invariant, consuming one vertex triple. -/
lemma asciiStep_inv (nm pre : List Vector3) (s : AsciiState) (v : Vector3)
    (h : AsciiInv nm pre s) : AsciiInv nm (pre ++ [v]) (asciiStep nm s v) := by
  obtain ⟨hvif, hfidx, hflen, hgood, hgidx, hmem, hface, hcn, hp1, hp2⟩ := h
  obtain ⟨hib, hig, tail, htail⟩ := addVertex_idx s.vs v hgidx
  have hgood' := addVertex_good s.vs v hgood
  have hgidx' := addVertex_goodIdx s.vs v hgidx
  have hmem' := addVertex_mem s.vs v hgood
  have hlen' : s.vs.vertices.length ≤ (addVertex s.vs v).1.vertices.length := by
    rw [htail]
    simp
  have hpresD : ∀ i (d : Vector3), i < s.vs.vertices.length →
      (addVertex s.vs v).1.vertices.getD i d = s.vs.vertices.getD i d := by
    intro i d hi
    rw [htail]
    exact List.getD_append _ _ _ _ hi
  have hpreD : ∀ i (d : Vector3), i < pre.length → (pre ++ [v]).getD i d = pre.getD i d :=
    fun i d hi => List.getD_append _ _ _ _ hi
  have hlenp : (pre ++ [v]).length = pre.length + 1 := by simp
  have h3 : pre.length % 3 = 0 ∨ pre.length % 3 = 1 ∨ pre.length % 3 = 2 := by omega
  rcases h3 with hmod | hmod | hmod
  · -- first vertex of a face
    have hv0 : s.vertexInFace = 0 := by rw [hvif, hmod]
    rw [asciiStep_eq0 nm s v hv0]
    refine ⟨?_, ?_, ?_, hgood', hgidx', ?_, ?_, ?_, ?_, ?_⟩
    · show 1 = (pre ++ [v]).length % 3
      rw [hlenp]
      omega
    · show s.faceIndex = (pre ++ [v]).length / 3
      rw [hfidx, hlenp]
      omega
    · show s.faces.length = (pre ++ [v]).length / 3
      rw [hflen, hlenp]
      omega
    · intro u
      show u ∈ (addVertex s.vs v).1.vertices ↔ u ∈ pre ++ [v]
      rw [hmem' u, hmem u, List.mem_append, List.mem_singleton]
    · intro j hj
      have hj' : j < s.faces.length := hj
      obtain ⟨⟨hb1, hg1⟩, ⟨hb2, hg2⟩, ⟨hb3, hg3⟩, hn⟩ := hface j hj'
      have harith : 3 * j + 2 < pre.length := by
        rw [hflen] at hj'
        omega
      refine ⟨⟨lt_of_lt_of_le hb1 hlen', ?_⟩, ⟨lt_of_lt_of_le hb2 hlen', ?_⟩,
        ⟨lt_of_lt_of_le hb3 hlen', ?_⟩, hn⟩
      · rw [hpresD _ _ hb1, hpreD _ _ (by omega)]
        exact hg1
      · rw [hpresD _ _ hb2, hpreD _ _ (by omega)]
        exact hg2
      · rw [hpresD _ _ hb3, hpreD _ _ (by omega)]
        exact hg3
    · show (match nm.get? s.faceIndex with
          | some n => n
          | none => s.currentNormal) =
        (nm.take (((pre ++ [v]).length + 2) / 3)).getLastD ⟨0, 0, 0⟩
      rw [hlenp, hfidx]
      have h13 : (pre.length + 1 + 2) / 3 = pre.length / 3 + 1 := by omega
      rw [h13]
      cases hget : nm.get? (pre.length / 3) with
      | some n =>
        obtain ⟨hn, hval⟩ := List.get?_eq_some.mp hget
        show n = (nm.take (pre.length / 3 + 1)).getLastD ⟨0, 0, 0⟩
        rw [getLastD_take_succ nm _ hn, List.getD_eq_getElem _ _ hn]
        exact hval.symm
      | none =>
        show s.currentNormal = (nm.take (pre.length / 3 + 1)).getLastD ⟨0, 0, 0⟩
        have hle : nm.length ≤ pre.length / 3 := List.get?_eq_none.mp hget
        rw [hcn]
        have h23 : (pre.length + 2) / 3 = pre.length / 3 := by omega
        rw [h23, List.take_of_length_le hle, List.take_of_length_le (by omega)]
    · intro h1'
      refine ⟨hib, ?_⟩
      show (addVertex s.vs v).1.vertices.getD (addVertex s.vs v).2 ⟨0, 0, 0⟩ =
        (pre ++ [v]).getD (3 * ((pre ++ [v]).length / 3)) ⟨0, 0, 0⟩
      rw [hig, hlenp]
      have he : 3 * ((pre.length + 1) / 3) = pre.length := by omega
      rw [he]
      exact (getD_concat_length pre v _).symm
    · intro h2'
      rw [hlenp] at h2'
      omega
  · -- second vertex of a face
    have hv1 : s.vertexInFace = 1 := by rw [hvif, hmod]
    rw [asciiStep_eq1 nm s v hv1]
    obtain ⟨hc1, hc1g⟩ := hp1 hmod
    refine ⟨?_, ?_, ?_, hgood', hgidx', ?_, ?_, ?_, ?_, ?_⟩
    · show 2 = (pre ++ [v]).length % 3
      rw [hlenp]
      omega
    · show s.faceIndex = (pre ++ [v]).length / 3
      rw [hfidx, hlenp]
      omega
    · show s.faces.length = (pre ++ [v]).length / 3
      rw [hflen, hlenp]
      omega
    · intro u
      show u ∈ (addVertex s.vs v).1.vertices ↔ u ∈ pre ++ [v]
      rw [hmem' u, hmem u, List.mem_append, List.mem_singleton]
    · intro j hj
      have hj' : j < s.faces.length := hj
      obtain ⟨⟨hb1, hg1⟩, ⟨hb2, hg2⟩, ⟨hb3, hg3⟩, hn⟩ := hface j hj'
      have harith : 3 * j + 2 < pre.length := by
        rw [hflen] at hj'
        omega
      refine ⟨⟨lt_of_lt_of_le hb1 hlen', ?_⟩, ⟨lt_of_lt_of_le hb2 hlen', ?_⟩,
        ⟨lt_of_lt_of_le hb3 hlen', ?_⟩, hn⟩
      · rw [hpresD _ _ hb1, hpreD _ _ (by omega)]
        exact hg1
      · rw [hpresD _ _ hb2, hpreD _ _ (by omega)]
        exact hg2
      · rw [hpresD _ _ hb3, hpreD _ _ (by omega)]
        exact hg3
    · show s.currentNormal = (nm.take (((pre ++ [v]).length + 2) / 3)).getLastD ⟨0, 0, 0⟩
      rw [hlenp]
      have he : (pre.length + 1 + 2) / 3 = (pre.length + 2) / 3 := by omega
      rw [he]
      exact hcn
    · intro h1'
      rw [hlenp] at h1'
      omega
    · intro h2'
      constructor
      · refine ⟨lt_of_lt_of_le hc1 hlen', ?_⟩
        show (addVertex s.vs v).1.vertices.getD s.currentFaceVertices.1 ⟨0, 0, 0⟩ =
          (pre ++ [v]).getD (3 * ((pre ++ [v]).length / 3)) ⟨0, 0, 0⟩
        have harith : 3 * (pre.length / 3) < pre.length := by omega
        have he : 3 * ((pre ++ [v]).length / 3) = 3 * (pre.length / 3) := by
          rw [hlenp]
          omega
        rw [he, hpresD _ _ hc1, hpreD _ _ harith]
        exact hc1g
      · refine ⟨hib, ?_⟩
        show (addVertex s.vs v).1.vertices.getD (addVertex s.vs v).2 ⟨0, 0, 0⟩ =
          (pre ++ [v]).getD (3 * ((pre ++ [v]).length / 3) + 1) ⟨0, 0, 0⟩
        have he : 3 * ((pre ++ [v]).length / 3) + 1 = pre.length := by
          rw [hlenp]
          omega
        rw [hig, he]
        exact (getD_concat_length pre v _).symm
  · -- third vertex: the face is pushed
    have hv2 : s.vertexInFace = 2 := by rw [hvif, hmod]
    rw [asciiStep_eq2 nm s v (by omega) (by omega)]
    obtain ⟨⟨hc1, hc1g⟩, ⟨hc2, hc2g⟩⟩ := hp2 hmod
    refine ⟨?_, ?_, ?_, hgood', hgidx', ?_, ?_, ?_, ?_, ?_⟩
    · show 0 = (pre ++ [v]).length % 3
      rw [hlenp]
      omega
    · show s.faceIndex + 1 = (pre ++ [v]).length / 3
      rw [hfidx, hlenp]
      omega
    · show (s.faces ++ [(⟨(s.currentFaceVertices.1, s.currentFaceVertices.2.1,
          (addVertex s.vs v).2), s.currentNormal⟩ : Face)]).length = (pre ++ [v]).length / 3
      rw [List.length_append, List.length_singleton, hflen, hlenp]
      omega
    · intro u
      show u ∈ (addVertex s.vs v).1.vertices ↔ u ∈ pre ++ [v]
      rw [hmem' u, hmem u, List.mem_append, List.mem_singleton]
    · intro j hj
      have hj' : j < s.faces.length + 1 := by
        have := hj
        simpa using this
      by_cases hjlt : j < s.faces.length
      · have hgetj : (s.faces ++ [(⟨(s.currentFaceVertices.1, s.currentFaceVertices.2.1,
            (addVertex s.vs v).2), s.currentNormal⟩ : Face)]).getD j defaultFace =
            s.faces.getD j defaultFace :=
          List.getD_append _ _ _ _ hjlt
        obtain ⟨⟨hb1, hg1⟩, ⟨hb2, hg2⟩, ⟨hb3, hg3⟩, hn⟩ := hface j hjlt
        have harith : 3 * j + 2 < pre.length := by
          rw [hflen] at hjlt
          omega
        rw [hgetj]
        refine ⟨⟨lt_of_lt_of_le hb1 hlen', ?_⟩, ⟨lt_of_lt_of_le hb2 hlen', ?_⟩,
          ⟨lt_of_lt_of_le hb3 hlen', ?_⟩, hn⟩
        · rw [hpresD _ _ hb1, hpreD _ _ (by omega)]
          exact hg1
        · rw [hpresD _ _ hb2, hpreD _ _ (by omega)]
          exact hg2
        · rw [hpresD _ _ hb3, hpreD _ _ (by omega)]
          exact hg3
      · have hjq : j = s.faces.length := by omega
        subst hjq
        have hgetj : (s.faces ++ [(⟨(s.currentFaceVertices.1, s.currentFaceVertices.2.1,
            (addVertex s.vs v).2), s.currentNormal⟩ : Face)]).getD s.faces.length defaultFace =
            (⟨(s.currentFaceVertices.1, s.currentFaceVertices.2.1,
              (addVertex s.vs v).2), s.currentNormal⟩ : Face) :=
          getD_concat_length _ _ _
        rw [hgetj]
        have harith1 : 3 * (pre.length / 3) < pre.length := by omega
        have harith2 : 3 * (pre.length / 3) + 1 < pre.length := by omega
        have he0 : 3 * s.faces.length = 3 * (pre.length / 3) := by rw [hflen]
        have he2 : 3 * s.faces.length + 2 = pre.length := by
          rw [hflen]
          omega
      
        refine ⟨⟨lt_of_lt_of_le hc1 hlen', ?_⟩, ⟨lt_of_lt_of_le hc2 hlen', ?_⟩,
          ⟨hib, ?_⟩, ?_⟩
        · rw [hpresD _ _ hc1, he0, hpreD _ _ harith1]
          exact hc1g
        · rw [hpresD _ _ hc2, he0, hpreD _ _ (by omega)]
          exact hc2g
        · rw [hig, he2]
          exact (getD_concat_length pre v _).symm
        · show s.currentNormal = normAt nm s.faces.length
          rw [hcn, hflen, normAt]
          have he : (pre.length + 2) / 3 = pre.length / 3 + 1 := by omega
          rw [he]
    · show s.currentNormal = (nm.take (((pre ++ [v]).length + 2) / 3)).getLastD ⟨0, 0, 0⟩
      rw [hlenp]
      have he : (pre.length + 1 + 2) / 3 = (pre.length + 2) / 3 := by omega
      rw [he]
      exact hcn
    · intro h1'
      rw [hlenp] at h1'
      omega
    · intro h2'
      rw [hlenp] at h2'
      omega

/-- The loop invariant holds after consuming any vertex list. -/
lemma foldl_asciiStep_inv (nm : List Vector3) (l pre : List Vector3) (s : AsciiState)
    (h : AsciiInv nm pre s) : AsciiInv nm (pre ++ l) (l.foldl (asciiStep nm) s) := by
  induction l generalizing pre s with
  | nil => simpa using h
  | cons v l ih =>
    rw [List.foldl_cons, show pre ++ v :: l = (pre ++ [v]) ++ l by simp]
    exact ih (pre ++ [v]) (asciiStep nm s v) (asciiStep_inv nm pre s v h)

/-- The loop invariant for the full vertex-match list. -/
lemma asciiInv_full (nm vm : List Vector3) :
    AsciiInv nm vm (vm.foldl (asciiStep nm) asciiInit) := by
  have := foldl_asciiStep_inv nm vm [] asciiInit (asciiInv_init nm)
  simpa using this

/-- The computed bounding box brackets every member of the list. -/
lemma calculateBounds_bracket (l : List Vector3) (v : Vector3) (hv : v ∈ l) :
    (calculateBounds l).min.x ≤ v.x ∧ v.x ≤ (calculateBounds l).max.x ∧
    (calculateBounds l).min.y ≤ v.y ∧ v.y ≤ (calculateBounds l).max.y ∧
    (calculateBounds l).min.z ≤ v.z ∧ v.z ≤ (calculateBounds l).max.z := by
  cases l with
  | nil => cases hv
  | cons u rest =>
    simp only [calculateBounds]
    rw [foldl_boundsStep]
    rcases List.mem_cons.mp hv with rfl | hm
    · exact ⟨foldl_min_le_init _ _ _, le_foldl_max_init _ _ _, foldl_min_le_init _ _ _,
        le_foldl_max_init _ _ _, foldl_min_le_init _ _ _, le_foldl_max_init _ _ _⟩
    · exact ⟨foldl_min_le_mem _ _ _ _ hm, le_foldl_max_mem _ _ _ _ hm,
        foldl_min_le_mem _ _ _ _ hm, le_foldl_max_mem _ _ _ _ hm,
        foldl_min_le_mem _ _ _ _ hm, le_foldl_max_mem _ _ _ _ hm⟩

/-- A triangle whose first two vertices coincide has zero cross product. -/
lemma triangleCrossSq_of_eq (v0 v2 : Vector3) : triangleCrossSq v0 v0 v2 = 0 := by
  simp only [triangleCrossSq]
  ring

/-- A mesh whose cached bounds are its vertex bounds and whose vertex list
holds two distinct triples has nonzero size. -/
lemma meshSize_ne_zero_of_two_mem (m : Mesh) (hb : m.bounds = calculateBounds m.vertices)
    (a b : Vector3) (ha : a ∈ m.vertices) (hbm : b ∈ m.vertices) (hab : a ≠ b) :
    meshSize m ≠ 0 := by
  have hax : a.x ≠ b.x ∨ a.y ≠ b.y ∨ a.z ≠ b.z := by
    by_contra hc
    push_neg at hc
    obtain ⟨h1, h2, h3⟩ := hc
    apply hab
    cases a
    cases b
    simp_all
  have hA := calculateBounds_bracket m.vertices a ha
  have hB := calculateBounds_bracket m.vertices b hbm
  rw [← hb] at hA hB
  intro hc
  rw [meshSize] at hc
  have hx := le_max_left (m.bounds.max.x - m.bounds.min.x)
    (max (m.bounds.max.y - m.bounds.min.y) (m.bounds.max.z - m.bounds.min.z))
  have hy : m.bounds.max.y - m.bounds.min.y ≤
      max (m.bounds.max.x - m.bounds.min.x)
        (max (m.bounds.max.y - m.bounds.min.y) (m.bounds.max.z - m.bounds.min.z)) :=
    le_trans (le_max_left _ _) (le_max_right _ _)
  have hz : m.bounds.max.z - m.bounds.min.z ≤
      max (m.bounds.max.x - m.bounds.min.x)
        (max (m.bounds.max.y - m.bounds.min.y) (m.bounds.max.z - m.bounds.min.z)) :=
    le_trans (le_max_right _ _) (le_max_right _ _)
  rw [hc] at hx hy hz
  rcases hax with h | h | h
  · rcases lt_or_gt_of_ne h with hlt | hlt
    · linarith [hA.1, hB.2.1]
    · linarith [hB.1, hA.2.1]
  · rcases lt_or_gt_of_ne h with hlt | hlt
    · linarith [hA.2.2.1, hB.2.2.2.1]
    · linarith [hB.2.2.1, hA.2.2.2.1]
  · rcases lt_or_gt_of_ne h with hlt | hlt
    · linarith [hA.2.2.2.2.1, hB.2.2.2.2.2]
    · linarith [hB.2.2.2.2.1, hA.2.2.2.2.2]

/-- C9: when the number of parsed vertex triples is not a multiple of
three, the trailing one or two vertices form no face — the face count is
the number of complete groups of three — yet they are present in the
vertex list and bracketed by the bounding box used for normalization; and
the full decoder still succeeds provided some complete group forms a
non-degenerate triangle. -/
theorem parseAsciiSTL_trailing_vertices (vm nm : List Vector3)
    (hmod : vm.length % 3 ≠ 0)
    (hnd : ∃ j, 3 * j + 2 < vm.length ∧
      triangleCrossSq (vm.getD (3 * j) ⟨0, 0, 0⟩) (vm.getD (3 * j + 1) ⟨0, 0, 0⟩)
        (vm.getD (3 * j + 2) ⟨0, 0, 0⟩) > 1 / 10 ^ 20) :
    ∃ mesh, parseAsciiSTL vm nm = .ok mesh ∧
      mesh.faces.length = vm.length / 3 ∧
      (∀ v ∈ vm.drop (3 * (vm.length / 3)), v ∈ mesh.vertices ∧
        mesh.bounds.min.x ≤ v.x ∧ v.x ≤ mesh.bounds.max.x ∧
        mesh.bounds.min.y ≤ v.y ∧ v.y ≤ mesh.bounds.max.y ∧
        mesh.bounds.min.z ≤ v.z ∧ v.z ≤ mesh.bounds.max.z) ∧
      (∃ m', parseSTL (.ascii vm nm) = .ok m') := by
  have hne : vm.length ≠ 0 := fun hc => hmod (by rw [hc])
  have hinv := asciiInv_full nm vm
  obtain ⟨j, hjb, hjnd⟩ := hnd
  refine ⟨⟨(vm.foldl (asciiStep nm) asciiInit).vs.vertices,
    (vm.foldl (asciiStep nm) asciiInit).faces,
    calculateBounds (vm.foldl (asciiStep nm) asciiInit).vs.vertices⟩, ?_, ?_, ?_, ?_⟩
  · unfold parseAsciiSTL
    rw [if_neg hne]
  · exact hinv.flen
  · intro v hv
    have hvm : v ∈ vm := List.mem_of_mem_drop hv
    have hmem : v ∈ (vm.foldl (asciiStep nm) asciiInit).vs.vertices := (hinv.mem v).mpr hvm
    exact ⟨hmem, calculateBounds_bracket _ v hmem⟩
  · -- the full pipeline succeeds
    have hjlt : j < (vm.foldl (asciiStep nm) asciiInit).faces.length := by
      rw [hinv.flen]
      omega
    obtain ⟨⟨hb1, hg1⟩, ⟨hb2, hg2⟩, ⟨hb3, hg3⟩, -⟩ := hinv.faceProp j hjlt
    have hraw : parseRaw (.ascii vm nm) =
        .ok ⟨(vm.foldl (asciiStep nm) asciiInit).vs.vertices,
          (vm.foldl (asciiStep nm) asciiInit).faces,
          calculateBounds (vm.foldl (asciiStep nm) asciiInit).vs.vertices⟩ := by
      simp only [parseRaw]
      unfold parseAsciiSTL
      rw [if_neg hne]
    set mesh1 : Mesh := ⟨(vm.foldl (asciiStep nm) asciiInit).vs.vertices,
      (vm.foldl (asciiStep nm) asciiInit).faces,
      calculateBounds (vm.foldl (asciiStep nm) asciiInit).vs.vertices⟩ with hmesh1
    have hvalid : faceIsValid mesh1 (mesh1.faces.getD j defaultFace) = true := by
      unfold faceIsValid meshVertex
      rw [show mesh1.vertices = (vm.foldl (asciiStep nm) asciiInit).vs.vertices from rfl]
      rw [hg1, hg2, hg3]
      exact decide_eq_true hjnd
    have hmemf : mesh1.faces.getD j defaultFace ∈ (removeDegenerate mesh1).faces := by
      simp only [removeDegenerate, List.mem_filter]
      exact ⟨getD_mem _ _ _ hjlt, hvalid⟩
    have hfd : (removeDegenerate mesh1).faces.length ≠ 0 := by
      intro hc
      rw [List.length_eq_zero] at hc
      rw [hc] at hmemf
      cases hmemf
    have hv0ne : vm.getD (3 * j) ⟨0, 0, 0⟩ ≠ vm.getD (3 * j + 1) ⟨0, 0, 0⟩ := by
      intro hc
      rw [hc, triangleCrossSq_of_eq] at hjnd
      norm_num at hjnd
    have hsz : meshSize (removeDegenerate mesh1) ≠ 0 := by
      apply meshSize_ne_zero_of_two_mem (removeDegenerate mesh1) rfl
        (vm.getD (3 * j) ⟨0, 0, 0⟩) (vm.getD (3 * j + 1) ⟨0, 0, 0⟩) ?_ ?_ hv0ne
      · rw [← hg1]
        exact getD_mem _ _ _ hb1
      · rw [← hg2]
        exact getD_mem _ _ _ hb2
    have hps : parseSTL (.ascii vm nm) = normalizeMesh (removeDegenerate mesh1) := by
      unfold parseSTL
      rw [hraw]
      show (if (removeDegenerate mesh1).faces.length = 0 then
          (.error "No valid faces in STL" : Except String Mesh)
        else normalizeMesh (removeDegenerate mesh1)) = normalizeMesh (removeDegenerate mesh1)
      rw [if_neg hfd]
    refine ⟨⟨(removeDegenerate mesh1).vertices.map (normMap (removeDegenerate mesh1)),
      (removeDegenerate mesh1).faces,
      calculateBounds ((removeDegenerate mesh1).vertices.map
        (normMap (removeDegenerate mesh1)))⟩, ?_⟩
    rw [hps]
    unfold normalizeMesh
    rw [if_neg hsz]

/-- C10: ASCII parsing does not fail when there are fewer facet normals
than vertex-triple groups; each face whose index has no parsed normal gets
the most recently parsed normal (the zero vector when none was parsed),
and the facing test reads exactly that stored normal, comparing its dot
product with the view direction against zero. -/
theorem parseAsciiSTL_normal_fallback (vm nm : List Vector3)
    (hne : vm.length ≠ 0) (hfew : nm.length < vm.length / 3) :
    ∃ mesh, parseAsciiSTL vm nm = .ok mesh ∧
      (∀ j, j < mesh.faces.length →
        (mesh.faces.getD j defaultFace).normal =
          if j < nm.length then nm.getD j ⟨0, 0, 0⟩ else nm.getLastD ⟨0, 0, 0⟩) ∧
      (∀ f d, isFrontFacing f d = true ↔
        0 < f.normal.x * d.x + f.normal.y * d.y + f.normal.z * d.z) := by
  have hinv := asciiInv_full nm vm
  refine ⟨⟨(vm.foldl (asciiStep nm) asciiInit).vs.vertices,
    (vm.foldl (asciiStep nm) asciiInit).faces,
    calculateBounds (vm.foldl (asciiStep nm) asciiInit).vs.vertices⟩, ?_, ?_, ?_⟩
  · unfold parseAsciiSTL
    rw [if_neg hne]
  · intro j hj
    have hj' : j < (vm.foldl (asciiStep nm) asciiInit).faces.length := hj
    have hn := (hinv.faceProp j hj').2.2.2
    show ((vm.foldl (asciiStep nm) asciiInit).faces.getD j defaultFace).normal = _
    rw [hn]
    by_cases hlt : j < nm.length
    · rw [if_pos hlt, normAt_lt nm j hlt]
    · rw [if_neg hlt, normAt_ge nm j (by omega)]
  · intro f d
    simp [isFrontFacing]

/-- Vertex triples for the C9 witness: one non-degenerate triangle plus a
single trailing vertex. -/
def c9VM : List Vector3 :=
  [⟨0, 0, 0⟩, ⟨1, 0, 0⟩, ⟨0, 1, 0⟩, ⟨5, 5, 5⟩]

/-- Witness for C9 at a concrete input: four vertex triples (one complete
non-degenerate triangle, one trailing vertex). -/
theorem parseAsciiSTL_trailing_vertices_witness :
    ∃ mesh, parseAsciiSTL c9VM exNM = .ok mesh ∧
      mesh.faces.length = c9VM.length / 3 ∧
      (∀ v ∈ c9VM.drop (3 * (c9VM.length / 3)), v ∈ mesh.vertices ∧
        mesh.bounds.min.x ≤ v.x ∧ v.x ≤ mesh.bounds.max.x ∧
        mesh.bounds.min.y ≤ v.y ∧ v.y ≤ mesh.bounds.max.y ∧
        mesh.bounds.min.z ≤ v.z ∧ v.z ≤ mesh.bounds.max.z) ∧
      (∃ m', parseSTL (.ascii c9VM exNM) = .ok m') :=
  parseAsciiSTL_trailing_vertices c9VM exNM (by norm_num [c9VM])
    ⟨0, by norm_num [c9VM], by norm_num [c9VM, triangleCrossSq]⟩

/-- Vertex triples for the C10 witness: two complete groups. -/
def c10VM : List Vector3 :=
  [⟨0, 0, 0⟩, ⟨1, 0, 0⟩, ⟨0, 1, 0⟩, ⟨0, 0, 5⟩, ⟨1, 0, 5⟩, ⟨0, 1, 5⟩]

/-- Witness for C10 at a concrete input: six vertex triples (two faces)
but only one parsed normal. -/
theorem parseAsciiSTL_normal_fallback_witness :
    ∃ mesh, parseAsciiSTL c10VM exNM = .ok mesh ∧
      (∀ j, j < mesh.faces.length →
        (mesh.faces.getD j defaultFace).normal =
          if j < exNM.length then exNM.getD j ⟨0, 0, 0⟩ else exNM.getLastD ⟨0, 0, 0⟩) ∧
      (∀ f d, isFrontFacing f d = true ↔
        0 < f.normal.x * d.x + f.normal.y * d.y + f.normal.z * d.z) :=
  parseAsciiSTL_normal_fallback c10VM exNM (by norm_num [c10VM])
    (by norm_num [c10VM, exNM])

end STL
